import Mathlib

/-!
Verification of the Consent Ledger Protocol (CNL-1.0) implementation.

Shallow embedding of the repository's TypeScript sources:
  src/consent-ledger.ts  (ConsentLedger facade and chain operations)
  matcher module         (matchConsent and the constraint evaluators)
  src/drift-detector.ts  (scope-creep detectors)
  hash module            (chainHash, authorisationPayload, actionPayload)
  src/types.ts           (data model)

Modelling decisions, stated once here:
* SHA-256 is modelled as a free term algebra (`HashVal.node`): `chainHash`
  is the free constructor, so hashes are injective in (previous_hash,
  payload) and never equal the genesis sentinel.  This idealises the
  collision resistance the spec assumes of the hash-chain primitive.
* JavaScript numbers are modelled as exact rationals (`JNum`); `NaN`
  never inhabits a stored parameter value, and `parseFloat` / date
  parsing are modelled by executable decimal parsers that preserve the
  parseable-versus-unparseable distinction the code branches on.
* Effectful generation (`generateId()`, `new Date().toISOString()`) is
  modelled by passing the generated id / timestamp as an explicit argument
  to the operation.
* A JS `Map` built by insertion is modelled as an association list; lookup
  via the map is lookup of the most recent insertion (for the id indexes,
  the last list element with the given id).
-/

namespace CNL

/-! ## Data model (src/types.ts) -/

inductive ConsentScope
  | specific
  | categorical
  | standing
  | emergency
  | delegated
deriving DecidableEq, Repr

inductive ConstraintType
  | monetary_limit
  | domain_restriction
  | time_window
  | approval_required
  | recipient_restriction
  | frequency_limit
  | custom
deriving DecidableEq, Repr

inductive ViolationSeverity
  | minor
  | major
  | critical
deriving DecidableEq, Repr

inductive ConsentStatus
  | authorised
  | exceeded
  | within_bounds
  | revoked
  | expired
  | pending_ratification
deriving DecidableEq, Repr

structure ConsentConstraint where
  type : ConstraintType
  description : String
  parameter : String
deriving DecidableEq, Repr

/-! ## Exact number and string primitives

JavaScript numbers are modelled by `JNum`, an exact rational kept
normalised by construction (`Nat.gcd` reduction).  `Infinity`/`NaN`
results of dividing by zero are modelled as 0; no claim in this file
depends on a zero divisor.  String helpers are implemented over the
character list so that every definition evaluates inside the kernel. -/

structure JNum where
  num : Int
  den : Nat
deriving DecidableEq, Repr

def jnMk (n : Int) (d : Nat) : JNum :=
  if d = 0 then ⟨0, 1⟩
  else
    let g := Nat.gcd n.natAbs d
    ⟨n / (g : Int), d / g⟩

def jnOfNat (n : Nat) : JNum := ⟨(n : Int), 1⟩

def jnNeg (a : JNum) : JNum := ⟨-a.num, a.den⟩

def jnAdd (a b : JNum) : JNum :=
  jnMk (a.num * (b.den : Int) + b.num * (a.den : Int)) (a.den * b.den)

def jnMul (a b : JNum) : JNum := jnMk (a.num * b.num) (a.den * b.den)

def jnDiv (a b : JNum) : JNum :=
  if b.num = 0 then ⟨0, 1⟩
  else if b.num < 0 then jnMk (-(a.num * (b.den : Int))) (a.den * b.num.natAbs)
  else jnMk (a.num * (b.den : Int)) (a.den * b.num.natAbs)

/-- `a < b` by cross multiplication (denominators positive). -/
def jnLt (a b : JNum) : Bool :=
  decide (a.num * (b.den : Int) < b.num * (a.den : Int))

/-- `a ≤ b` by cross multiplication. -/
def jnLe (a b : JNum) : Bool :=
  decide (a.num * (b.den : Int) ≤ b.num * (a.den : Int))

/-- `Math.min`. -/
def jnMin (a b : JNum) : JNum := if jnLt b a then b else a

def natDigitsAux : Nat → Nat → List Char
  | 0, _ => []
  | _ + 1, 0 => []
  | fuel + 1, n => natDigitsAux fuel (n / 10) ++ [Char.ofNat (48 + n % 10)]

/-- Decimal rendering of a natural number. -/
def natRepr (n : Nat) : String :=
  if n = 0 then "0" else String.mk (natDigitsAux n n)

def intRepr (i : Int) : String :=
  if i < 0 then "-" ++ natRepr i.natAbs else natRepr i.natAbs

/-- Display form of a `JNum` (JS renders decimals; only the integer case
is ever compared in a property, the fraction form is display-only). -/
def jnToString (q : JNum) : String :=
  if q.den = 1 then intRepr q.num else intRepr q.num ++ "/" ++ natRepr q.den

def charsTrim (cs : List Char) : List Char :=
  ((cs.dropWhile Char.isWhitespace).reverse.dropWhile Char.isWhitespace).reverse

/-- `s.trim()`. -/
def strTrim (s : String) : String := String.mk (charsTrim s.data)

/-- `s.toLowerCase()`. -/
def strToLower (s : String) : String := String.mk (s.data.map Char.toLower)

def splitChars (sep : Char) : List Char → List (List Char)
  | [] => [[]]
  | a :: as =>
    let r := splitChars sep as
    if a = sep then [] :: r
    else
      match r with
      | h :: t => (a :: h) :: t
      | [] => [[a]]

/-- `s.split(sep)` for a single-character separator (the only form the
source uses: `','` and `'/'`). -/
def strSplitOn (sep : Char) (s : String) : List String :=
  (splitChars sep s.data).map String.mk

/-- `xs.join(sep)`. -/
def strIntercalate (sep : String) : List String → String
  | [] => ""
  | [x] => x
  | x :: xs => x ++ sep ++ strIntercalate sep xs

def insertLe {α : Type} (le : α → α → Bool) (x : α) : List α → List α
  | [] => [x]
  | y :: ys => if le y x then y :: insertLe le x ys else x :: y :: ys

/-- Stable ascending sort (JS `Array.prototype.sort` is stable; stable
sorts under the same comparator agree, so insertion sort is a faithful
model). -/
def stableSortBy {α : Type} (le : α → α → Bool) (l : List α) : List α :=
  l.foldl (fun acc x => insertLe le x acc) []

def charsLe : List Char → List Char → Bool
  | [], _ => true
  | _ :: _, [] => false
  | a :: as, b :: bs => if a = b then charsLe as bs else decide (a < b)

/-- Default JS string comparison (code-unit lexicographic). -/
def strLeB (a b : String) : Bool := charsLe a.data b.data

/-- A JSON/JS scalar stored in an action's open parameter map.
JS `NaN` is excluded from `num` (numbers are exact rationals). -/
inductive JsVal
  | num (q : JNum)
  | str (s : String)
  | jsBool (b : Bool)
  | jsNull
deriving DecidableEq, Repr

/-- An action's `parameters: Record<string, unknown>`: association list
with unique keys, in object insertion order. -/
abbrev Params := List (String × JsVal)

/-- Hash values: the genesis sentinel `'0'` or a chain hash.  Free term
algebra modelling a collision-resistant SHA-256 (see file header). -/
inductive HashVal
  | genesis
  | node (prev : HashVal) (payload : String)
deriving DecidableEq, Repr

structure AuthorisationEntry where
  id : String
  timestamp : String
  principal_id : String
  agent_id : String
  scope : ConsentScope
  description : String
  constraints : List ConsentConstraint
  expires_at : Option String
  revoked : Bool
  revoked_at : Option String
  hash : HashVal
  previous_hash : HashVal
deriving DecidableEq, Repr

structure ActionRecord where
  id : String
  timestamp : String
  agent_id : String
  authorisation_id : String
  action_type : String
  description : String
  parameters : Params
  clearpath_trace_id : Option String
  hash : HashVal
  previous_hash : HashVal
deriving DecidableEq, Repr

structure ConsentViolation where
  constraint_type : String
  expected : String
  actual : String
  severity : ViolationSeverity
  description : String
deriving DecidableEq, Repr

structure ConsentMatch where
  authorisation_id : String
  action_id : String
  status : ConsentStatus
  violations : List ConsentViolation
  matched_at : String
deriving DecidableEq, Repr

structure VerifyResult where
  valid : Bool
  authorisations_checked : Nat
  actions_checked : Nat
deriving DecidableEq, Repr

/-! ## JavaScript primitive models -/

/-- `a ?? b`: falls through on both `undefined` (`none`) and JS `null`. -/
def coalesce (a b : Option JsVal) : Option JsVal :=
  match a with
  | none => b
  | some JsVal.jsNull => b
  | some v => some v

/-- Property access `parameters[k]`: `undefined` when the key is absent. -/
def pget (ps : Params) (k : String) : Option JsVal :=
  ps.lookup k

def natOfDigits (ds : List Char) : Nat :=
  ds.foldl (fun a c => a * 10 + (c.toNat - 48)) 0

/-- Model of the platform `parseFloat`: optional sign, decimal digits,
optional fraction; trailing characters are ignored (longest numeric
prefix); `NaN` becomes `none`.  Exponent forms are not modelled. -/
def jsParseFloat (s : String) : Option JNum :=
  let cs := charsTrim s.data
  let signed : Bool × List Char :=
    match cs with
    | '-' :: t => (true, t)
    | '+' :: t => (false, t)
    | t => (false, t)
  let intDigits := signed.2.takeWhile Char.isDigit
  let rest := signed.2.dropWhile Char.isDigit
  let fracDigits :=
    match rest with
    | '.' :: t => t.takeWhile Char.isDigit
    | _ => []
  if intDigits.isEmpty && fracDigits.isEmpty then none
  else
    let q := jnAdd ⟨(natOfDigits intDigits : Int), 1⟩
      (jnMk (natOfDigits fracDigits : Int) (10 ^ fracDigits.length))
    some (if signed.1 then jnNeg q else q)

/-- Model of `new Date(s).getTime()`: timestamps are decimal integer
strings denoting epoch milliseconds (optionally negative); anything else
is an invalid date (`NaN`, modelled as `none`).  This preserves exactly
the parseable/unparseable distinction the code branches on. -/
def jsParseDate (s : String) : Option Int :=
  let cs := s.data
  let signed : Bool × List Char :=
    match cs with
    | '-' :: t => (true, t)
    | t => (false, t)
  if signed.2 ≠ [] ∧ signed.2.all Char.isDigit then
    let n : Int := natOfDigits signed.2
    some (if signed.1 then -n else n)
  else none

/-- `parseNumber` from the matcher and drift-detector modules: a
non-`NaN` number is itself; a string goes through `parseFloat`;
anything else (booleans, `null`, `undefined`) is `null`. -/
def parseNumber : Option JsVal → Option JNum
  | some (JsVal.num q) => some q
  | some (JsVal.str s) => jsParseFloat s
  | _ => none

/-- JS `String(v)` on a defined value. -/
def jsToString : JsVal → String
  | JsVal.num q => jnToString q
  | JsVal.str s => s
  | JsVal.jsBool b => cond b "true" "false"
  | JsVal.jsNull => "null"

/-- `String(v ?? 'none')` as used by `checkApprovalRequired`. -/
def jsStringOrNone : Option JsVal → String
  | none => "none"
  | some JsVal.jsNull => "none"
  | some v => jsToString v

/-- Whether `needle` is a prefix of `hay` (character-wise). -/
def segStarts : List Char → List Char → Bool
  | _, [] => true
  | [], _ :: _ => false
  | a :: as, b :: bs => a == b && segStarts as bs

/-- Whether `needle` occurs contiguously inside `hay`. -/
def segIn (needle : List Char) : List Char → Bool
  | [] => needle.isEmpty
  | a :: as => segStarts (a :: as) needle || segIn needle as

/-- JS `s.includes(sub)`. -/
def jsIncludes (s sub : String) : Bool :=
  segIn sub.data s.data

/-! ## Constraint evaluators (matcher module) -/

def checkMonetaryLimit (constraint : ConsentConstraint) (parameters : Params) :
    Option ConsentViolation :=
  match parseNumber (some (JsVal.str constraint.parameter)) with
  | none => none
  | some limit =>
    match parseNumber (coalesce (coalesce (pget parameters "amount") (pget parameters "value"))
        (pget parameters "cost")) with
    | none => none
    | some amount =>
      if jnLt limit amount then
        some { constraint_type := "monetary_limit"
               expected := "≤ " ++ constraint.parameter
               actual := jnToString amount
               severity := if jnLt (jnMul limit (jnMk 3 2)) amount then ViolationSeverity.critical
                           else ViolationSeverity.major
               description := constraint.description }
      else none

def checkDomainRestriction (constraint : ConsentConstraint) (parameters : Params) :
    Option ConsentViolation :=
  let allowed := (strSplitOn ',' (strToLower constraint.parameter)).map strTrim
  let domain := strToLower (jsToString ((coalesce (coalesce (pget parameters "domain")
      (pget parameters "category")) (pget parameters "type")).getD (JsVal.str "")))
  if domain = "" then none
  else
    let inDomain := allowed.any fun d => jsIncludes domain d || jsIncludes d domain
    if inDomain then none
    else
      some { constraint_type := "domain_restriction"
             expected := strIntercalate ", " allowed
             actual := domain
             severity := ViolationSeverity.major
             description := constraint.description }

def checkTimeWindow (constraint : ConsentConstraint) (actionTimestamp : String) :
    Option ConsentViolation :=
  let parts := (strSplitOn '/' constraint.parameter).map strTrim
  let start := parts.getD 0 ""
  let stop := parts.getD 1 ""
  if start = "" ∨ stop = "" then none
  else
    match jsParseDate start, jsParseDate stop with
    | some startDate, some endDate =>
      match jsParseDate actionTimestamp with
      | some t =>
        if t < startDate ∨ t > endDate then
          some { constraint_type := "time_window"
                 expected := start ++ " – " ++ stop
                 actual := actionTimestamp
                 severity := ViolationSeverity.major
                 description := constraint.description }
        else none
      | none => none
    | _, _ => none

def checkApprovalRequired (constraint : ConsentConstraint) (parameters : Params) :
    Option ConsentViolation :=
  let approved := coalesce (pget parameters "approval_obtained") (pget parameters "approved")
  if approved = some (JsVal.jsBool true) ∨ approved = some (JsVal.str "true") then none
  else
    some { constraint_type := "approval_required"
           expected := "approval obtained"
           actual := jsStringOrNone approved
           severity := ViolationSeverity.major
           description := constraint.description }

def checkRecipientRestriction (constraint : ConsentConstraint) (parameters : Params) :
    Option ConsentViolation :=
  let allowed := (strSplitOn ',' constraint.parameter).map fun s => strToLower (strTrim s)
  let recipient := strToLower (jsToString ((coalesce (coalesce (pget parameters "recipient")
      (pget parameters "to")) (pget parameters "payee")).getD (JsVal.str "")))
  if recipient = "" then none
  else
    let allowedMatch := allowed.any fun r => jsIncludes recipient r || jsIncludes r recipient
    if allowedMatch then none
    else
      some { constraint_type := "recipient_restriction"
             expected := strIntercalate ", " allowed
             actual := recipient
             severity := ViolationSeverity.critical
             description := constraint.description }

/-- Context record passed to `checkFrequencyLimit`. -/
structure FreqContext where
  actionCountForAuthInPeriod : Option Nat
  limit : Option JNum
deriving DecidableEq, Repr

def checkFrequencyLimit (constraint : ConsentConstraint) (_parameters : Params)
    (context : FreqContext) : Option ConsentViolation :=
  let limit :=
    match context.limit with
    | some l => some l
    | none => parseNumber (some (JsVal.str constraint.parameter))
  let count := context.actionCountForAuthInPeriod.getD 0
  match limit with
  | none => none
  | some l =>
    if jnLt l (jnOfNat count) then
      some { constraint_type := "frequency_limit"
             expected := "≤ " ++ jnToString l ++ " in period"
             actual := natRepr count
             severity := if jnLt (jnMul l (jnOfNat 2)) (jnOfNat count) then ViolationSeverity.critical
                         else ViolationSeverity.major
             description := constraint.description }
    else none

def checkCustom (constraint : ConsentConstraint) (action : ActionRecord) :
    Option ConsentViolation :=
  let descMatch := jsIncludes (strToLower action.description) (strToLower constraint.description)
  if descMatch then none
  else
    some { constraint_type := "custom"
           expected := constraint.description
           actual := action.description
           severity := ViolationSeverity.minor
           description := constraint.description }

/-! ## Consent matcher (matcher module, `matchConsent`) -/

/-- Optional context supplied by the facade to `matchConsent`. -/
structure MatcherContext where
  actionCountByAuthorisationInPeriod : List (String × Nat)
  frequencyLimitByConstraint : List (String × JNum)
deriving DecidableEq, Repr

/-- JS template interpolation of a nullable string. -/
def jsNullableString : Option String → String
  | none => "null"
  | some s => s

/-- The expiry short-circuit test inlined in `matchConsent`:
`authorisation.expires_at && new Date(expires_at) < new Date(action.timestamp)`.
An empty string is falsy; `NaN` comparisons are false. -/
def expiryBefore (expires_at : Option String) (actionTimestamp : String) : Bool :=
  match expires_at with
  | none => false
  | some e =>
    if e = "" then false
    else
      match jsParseDate e, jsParseDate actionTimestamp with
      | some ed, some t => ed < t
      | _, _ => false

/-- One iteration of the constraint `switch` in `matchConsent`. -/
def evalConstraint (authorisation : AuthorisationEntry) (action : ActionRecord)
    (context : Option MatcherContext) (constraint : ConsentConstraint) :
    Option ConsentViolation :=
  match constraint.type with
  | ConstraintType.monetary_limit => checkMonetaryLimit constraint action.parameters
  | ConstraintType.domain_restriction => checkDomainRestriction constraint action.parameters
  | ConstraintType.time_window => checkTimeWindow constraint action.timestamp
  | ConstraintType.approval_required => checkApprovalRequired constraint action.parameters
  | ConstraintType.recipient_restriction => checkRecipientRestriction constraint action.parameters
  | ConstraintType.frequency_limit =>
    let count := (context.map fun c =>
      c.actionCountByAuthorisationInPeriod.lookup authorisation.id).join
    let limit :=
      match context.bind fun c => c.frequencyLimitByConstraint.lookup constraint.parameter with
      | some l => some l
      | none => parseNumber (some (JsVal.str constraint.parameter))
    checkFrequencyLimit constraint action.parameters
      { actionCountForAuthInPeriod := count, limit := limit }
  | ConstraintType.custom => checkCustom constraint action

/-- `matchConsent(authorisation, action, context)`; the evaluation
timestamp `matched_at` (`isoNow()`) is passed explicitly. -/
def matchConsent (authorisation : Option AuthorisationEntry) (action : ActionRecord)
    (context : Option MatcherContext) (matched_at : String) : ConsentMatch :=
  match authorisation with
  | none =>
    { authorisation_id := action.authorisation_id
      action_id := action.id
      status := ConsentStatus.exceeded
      violations := [{ constraint_type := "authorisation"
                       expected := "valid authorisation"
                       actual := "none"
                       severity := ViolationSeverity.critical
                       description := "Action has no matching authorisation" }]
      matched_at := matched_at }
  | some auth =>
    if auth.revoked then
      { authorisation_id := auth.id
        action_id := action.id
        status := ConsentStatus.revoked
        violations := [{ constraint_type := "revocation"
                         expected := "active authorisation"
                         actual := "revoked at " ++ jsNullableString auth.revoked_at
                         severity := ViolationSeverity.critical
                         description := "Action performed after authorisation was revoked" }]
        matched_at := matched_at }
    else if expiryBefore auth.expires_at action.timestamp then
      { authorisation_id := auth.id
        action_id := action.id
        status := ConsentStatus.expired
        violations := [{ constraint_type := "expiry"
                         expected := "valid before " ++ jsNullableString auth.expires_at
                         actual := action.timestamp
                         severity := ViolationSeverity.critical
                         description := "Action performed after authorisation expired" }]
        matched_at := matched_at }
    else if auth.scope = ConsentScope.emergency then
      { authorisation_id := auth.id
        action_id := action.id
        status := ConsentStatus.pending_ratification
        violations := []
        matched_at := matched_at }
    else
      let violations := auth.constraints.filterMap (evalConstraint auth action context)
      { authorisation_id := auth.id
        action_id := action.id
        status := if violations.length > 0 then ConsentStatus.exceeded
                  else ConsentStatus.within_bounds
        violations := violations
        matched_at := matched_at }

/-! ## Hashing and payloads (hash module) -/

/-- `chainHash(previousHash, payload)`: free constructor of the hash
algebra (idealised collision-resistant SHA-256). -/
def chainHash (previousHash : HashVal) (payload : String) : HashVal :=
  HashVal.node previousHash payload

def scopeString : ConsentScope → String
  | ConsentScope.specific => "specific"
  | ConsentScope.categorical => "categorical"
  | ConsentScope.standing => "standing"
  | ConsentScope.emergency => "emergency"
  | ConsentScope.delegated => "delegated"

def constraintTypeString : ConstraintType → String
  | ConstraintType.monetary_limit => "monetary_limit"
  | ConstraintType.domain_restriction => "domain_restriction"
  | ConstraintType.time_window => "time_window"
  | ConstraintType.approval_required => "approval_required"
  | ConstraintType.recipient_restriction => "recipient_restriction"
  | ConstraintType.frequency_limit => "frequency_limit"
  | ConstraintType.custom => "custom"

/-- `authorisationPayload(entry)`: the ten non-hash fields joined by
newlines (`join('\n')` written out for the fixed field list). -/
def authorisationPayload (entry : AuthorisationEntry) : String :=
  let constraintsStr := strIntercalate "|" (entry.constraints.map fun c =>
    constraintTypeString c.type ++ ":" ++ c.description ++ ":" ++ c.parameter)
  entry.id ++ "\n" ++ entry.timestamp ++ "\n" ++ entry.principal_id ++ "\n" ++
    entry.agent_id ++ "\n" ++ scopeString entry.scope ++ "\n" ++ entry.description ++ "\n" ++
    constraintsStr ++ "\n" ++ entry.expires_at.getD "" ++ "\n" ++
    (cond entry.revoked "true" "false") ++ "\n" ++ entry.revoked_at.getD ""

/-- `JSON.stringify` of a JSON scalar (string escaping not modelled). -/
def jsonOfVal : JsVal → String
  | JsVal.num q => jnToString q
  | JsVal.str s => "\"" ++ s ++ "\""
  | JsVal.jsBool b => cond b "true" "false"
  | JsVal.jsNull => "null"

/-- `JSON.stringify(parameters, sortedKeys)`: object with keys sorted. -/
def paramsJson (ps : Params) : String :=
  let sorted := stableSortBy (fun a b => strLeB a.1 b.1) ps
  "\x7b" ++ strIntercalate "," (sorted.map fun p =>
    "\"" ++ p.1 ++ "\":" ++ jsonOfVal p.2) ++ "\x7d"

/-- `actionPayload(record)`: the eight non-hash fields joined by newlines. -/
def actionPayload (record : ActionRecord) : String :=
  record.id ++ "\n" ++ record.timestamp ++ "\n" ++ record.agent_id ++ "\n" ++
    record.authorisation_id ++ "\n" ++ record.action_type ++ "\n" ++ record.description ++ "\n" ++
    paramsJson record.parameters ++ "\n" ++ record.clearpath_trace_id.getD ""

/-! ## Ledger state and operations (src/consent-ledger.ts) -/

def GENESIS : HashVal := HashVal.genesis

/-- Ledger state: the two chains in creation order.  The `authById` /
`actionById` maps are modelled as derived lookups (`findAuth` /
`findAction`), last insertion winning, matching JS `Map` semantics for
every state reachable through this API. -/
structure Ledger where
  principal_id : String
  authorisations : List AuthorisationEntry
  actions : List ActionRecord
deriving DecidableEq, Repr

/-- `authById.get(id)`: the most recently inserted entry with this id. -/
def findAuth (L : Ledger) (id : String) : Option AuthorisationEntry :=
  L.authorisations.reverse.find? fun a => a.id = id

/-- `actionById.get(id)`. -/
def findAction (L : Ledger) (id : String) : Option ActionRecord :=
  L.actions.reverse.find? fun a => a.id = id

structure AuthoriseFields where
  principal_id : String
  agent_id : String
  scope : ConsentScope
  description : String
  constraints : List ConsentConstraint
  expires_at : Option String
deriving DecidableEq, Repr

/-- `authorise(entry)`; the generated `id` and `timestamp` are explicit
arguments (see file header). -/
def authorise (L : Ledger) (entry : AuthoriseFields) (id timestamp : String) :
    AuthorisationEntry × Ledger :=
  let previous_hash := (L.authorisations.getLast?.map fun a => a.hash).getD GENESIS
  let base : AuthorisationEntry :=
    { id := id
      timestamp := timestamp
      principal_id := entry.principal_id
      agent_id := entry.agent_id
      scope := entry.scope
      description := entry.description
      constraints := entry.constraints
      expires_at := entry.expires_at
      revoked := false
      revoked_at := none
      previous_hash := previous_hash
      hash := GENESIS }
  let full := { base with hash := chainHash previous_hash (authorisationPayload base) }
  (full, { L with authorisations := L.authorisations ++ [full] })

/-- `revoke(authorisation_id)`; the revocation timestamp is explicit. -/
def revoke (L : Ledger) (authorisation_id : String) (now : String) :
    Except String (AuthorisationEntry × Ledger) :=
  match findAuth L authorisation_id with
  | none => Except.error ("Authorisation not found: " ++ authorisation_id)
  | some auth =>
    if auth.revoked then Except.ok (auth, L)
    else
      let updated0 := { auth with revoked := true, revoked_at := some now }
      let updated := { updated0 with
        hash := chainHash auth.previous_hash (authorisationPayload updated0) }
      let idx := L.authorisations.findIdx fun a => a.id = authorisation_id
      Except.ok (updated, { L with authorisations := L.authorisations.set idx updated })

structure ActionFields where
  agent_id : String
  authorisation_id : String
  action_type : String
  description : String
  parameters : Params
  clearpath_trace_id : Option String
deriving DecidableEq, Repr

/-- `recordAction(action)`: total — it accepts any `authorisation_id`,
including one matching no authorisation.  Generated `id`/`timestamp`
are explicit arguments. -/
def recordAction (L : Ledger) (action : ActionFields) (id timestamp : String) :
    ActionRecord × Ledger :=
  let previous_hash := (L.actions.getLast?.map fun a => a.hash).getD GENESIS
  let base : ActionRecord :=
    { id := id
      timestamp := timestamp
      agent_id := action.agent_id
      authorisation_id := action.authorisation_id
      action_type := action.action_type
      description := action.description
      parameters := action.parameters
      clearpath_trace_id := action.clearpath_trace_id
      previous_hash := previous_hash
      hash := GENESIS }
  let full := { base with hash := chainHash previous_hash (actionPayload base) }
  (full, { L with actions := L.actions ++ [full] })

def periodMs : Int := 24 * 60 * 60 * 1000

/-- `buildMatcherContext()`: walks the action list accumulating a count
per `authorisation_id`.  The source also computes a 24-hour bucket and a
`key` string from it per action, but never uses them; the stored count
is keyed by `authorisation_id` alone. -/
def buildMatcherContext (L : Ledger) : MatcherContext :=
  let counts := L.actions.foldl
    (fun (m : List (String × Nat)) a =>
      let current := (m.lookup a.authorisation_id).getD 0
      if m.any fun p => p.1 = a.authorisation_id then
        m.map fun p => if p.1 = a.authorisation_id then (p.1, current + 1) else p
      else m ++ [(a.authorisation_id, current + 1)])
    []
  { actionCountByAuthorisationInPeriod := counts, frequencyLimitByConstraint := [] }

/-- `checkConsent(action_id)`; evaluation timestamp explicit. -/
def checkConsent (L : Ledger) (action_id : String) (now : String) :
    Except String ConsentMatch :=
  match findAction L action_id with
  | none => Except.error ("Action not found: " ++ action_id)
  | some action =>
    let context := buildMatcherContext L
    Except.ok (matchConsent (findAuth L action.authorisation_id) action (some context) now)

/-- `checkAllActions()`; evaluation timestamp explicit. -/
def checkAllActions (L : Ledger) (now : String) : List ConsentMatch :=
  let context := buildMatcherContext L
  L.actions.map fun action =>
    matchConsent (findAuth L action.authorisation_id) action (some context) now

/-! ## Chain verification (`ConsentLedger.verify`) -/

/-- The chain-walk loop in `verify()`, shared verbatim by both chains:
pointer continuity against the running expected-previous hash, plus
recomputation of each element's own digest. -/
def chainOk {α : Type} (payload : α → String) (hashOf prevOf : α → HashVal) :
    HashVal → List α → Bool
  | _, [] => true
  | prev, a :: rest =>
    decide (prevOf a = prev) &&
      decide (hashOf a = chainHash (prevOf a) (payload a)) &&
      chainOk payload hashOf prevOf (hashOf a) rest

def authChainOk : HashVal → List AuthorisationEntry → Bool :=
  chainOk authorisationPayload (fun a => a.hash) (fun a => a.previous_hash)

def actionChainOk : HashVal → List ActionRecord → Bool :=
  chainOk actionPayload (fun a => a.hash) (fun a => a.previous_hash)

/-- `verify()`: never fails; both chains checked independently. -/
def verify (L : Ledger) : VerifyResult :=
  { valid := authChainOk GENESIS L.authorisations && actionChainOk GENESIS L.actions
    authorisations_checked := L.authorisations.length
    actions_checked := L.actions.length }

/-! ## Snapshot export/import (`toJSON` / `fromJSON`)

The spec excludes the JSON string framing as an external collaborator;
the snapshot structure below is the modelled exchange format. -/

def schema : String := "CNL-1.0"

structure LedgerSnapshot where
  schema : String
  principal_id : String
  authorisations : List AuthorisationEntry
  actions : List ActionRecord
deriving DecidableEq, Repr

def toJSON (L : Ledger) : LedgerSnapshot :=
  { schema := schema
    principal_id := L.principal_id
    authorisations := L.authorisations
    actions := L.actions }

/-- `fromJSON(json)`: schema check, then rebuild state (the ID indexes
are derived lookups in this model, matching the rebuilt maps). -/
def fromJSON (snapshot : LedgerSnapshot) : Except String Ledger :=
  if snapshot.schema ≠ schema then Except.error ("Invalid schema: expected " ++ schema)
  else Except.ok
    { principal_id := snapshot.principal_id
      authorisations := snapshot.authorisations
      actions := snapshot.actions }

/-! ## Drift detection (src/drift-detector.ts)

`generateId()` on patterns is random and never inspected by any caller
or property; it is modelled as the empty string. -/

inductive ScopeCreepPatternType
  | gradual_expansion
  | constraint_erosion
  | frequency_escalation
  | domain_drift
  | authority_inflation
deriving DecidableEq, Repr

structure ScopeCreepPattern where
  id : String
  pattern_type : ScopeCreepPatternType
  description : String
  evidence_ids : List String
  severity : JNum
  first_detected : String
  occurrences : Nat
deriving DecidableEq, Repr

def MIN_DATA_POINTS : Nat := 3

def getMonetaryValue (parameters : Params) : Option JNum :=
  parseNumber (coalesce (coalesce (pget parameters "amount") (pget parameters "value"))
    (pget parameters "cost"))

def getLimitForAuth (auth : AuthorisationEntry) (type : ConstraintType) : Option JNum :=
  match auth.constraints.find? fun x => x.type = type with
  | some c => parseNumber (some (JsVal.str c.parameter))
  | none => none

/-- Numeric sort key used by the detectors' timestamp comparator
(`new Date(ts).getTime()`); an unparseable date is treated as epoch 0,
a case no detector property in this file depends on. -/
def tsKey (ts : String) : Int :=
  (jsParseDate ts).getD 0

/-- `byAuth.get(auth.id) ?? []` after grouping: the actions claiming this
authorisation, in recording order (grouping preserves list order). -/
def actionsForAuth (actions : List ActionRecord) (authId : String) : List ActionRecord :=
  actions.filter fun a => a.authorisation_id = authId

/-- `.slice().sort((x, y) => getTime(x) - getTime(y))` (stable sort). -/
def sortByTimestamp (list : List ActionRecord) : List ActionRecord :=
  stableSortBy (fun x y => decide (tsKey x.timestamp ≤ tsKey y.timestamp)) list

/-- The strictly-increasing loop over a ratio list: sets the flag false
as soon as `r[i] ≤ r[i-1]`. -/
def strictIncr : List JNum → Bool
  | [] => true
  | [_] => true
  | a :: b :: t => jnLt a b && strictIncr (b :: t)

/-- The per-authorisation body of `detectGradualExpansion`'s loop. -/
def gradualForAuth (actions : List ActionRecord) (auth : AuthorisationEntry) :
    List ScopeCreepPattern :=
  match getLimitForAuth auth ConstraintType.monetary_limit with
  | none => []
  | some limit =>
    let list := sortByTimestamp (actionsForAuth actions auth.id)
    let values := list.filterMap fun a =>
      (getMonetaryValue a.parameters).map fun v => (a.id, a.timestamp, v)
    if values.length < MIN_DATA_POINTS then []
    else
      let rs := values.map fun x => jnDiv x.2.2 limit
      if strictIncr rs && jnLe (jnMk 7 10) (rs.getLastD (jnOfNat 0)) then
        [{ id := ""
           pattern_type := ScopeCreepPatternType.gradual_expansion
           description := "Spending or value creeping toward limit (" ++ jnToString limit ++
             ") over " ++ natRepr values.length ++ " actions"
           evidence_ids := values.map fun x => x.1
           severity := jnMin (jnMk 9 10)
             (jnAdd (jnMk 3 10) (jnMul (rs.getLastD (jnOfNat 0)) (jnMk 1 2)))
           first_detected := (values.head?.map fun x => x.2.1).getD ""
           occurrences := values.length }]
      else []

def detectGradualExpansion (authorisations : List AuthorisationEntry)
    (actions : List ActionRecord) : List ScopeCreepPattern :=
  authorisations.flatMap (gradualForAuth actions)

/-- `Math.floor(t / periodMs) * periodMs` (floor division). -/
def bucketOf (ts : String) : Int :=
  (tsKey ts).fdiv periodMs * periodMs

/-- The per-bucket counts `Map` of `detectFrequencyEscalation`:
first-occurrence key order, then sorted by bucket start. -/
def bucketCounts (list : List ActionRecord) : List (Int × Nat) :=
  let m := list.foldl
    (fun (m : List (Int × Nat)) a =>
      let b := bucketOf a.timestamp
      if m.any fun p => p.1 = b then
        m.map fun p => if p.1 = b then (p.1, p.2 + 1) else p
      else m ++ [(b, ((m.lookup b).getD 0) + 1)])
    []
  stableSortBy (fun a b => decide (a.1 ≤ b.1)) m

def strictIncrNat : List Nat → Bool
  | [] => true
  | [_] => true
  | a :: b :: t => decide (a < b) && strictIncrNat (b :: t)

def frequencyForAuth (actions : List ActionRecord) (auth : AuthorisationEntry) :
    List ScopeCreepPattern :=
  let list := sortByTimestamp (actionsForAuth actions auth.id)
  if list.length < MIN_DATA_POINTS then []
  else
    let counts := (bucketCounts list).map fun p => p.2
    if counts.length < MIN_DATA_POINTS then []
    else if strictIncrNat counts then
      [{ id := ""
         pattern_type := ScopeCreepPatternType.frequency_escalation
         description := "Action frequency increasing over time (" ++
           strIntercalate " → " (counts.map natRepr) ++ " per period)"
         evidence_ids := (list.drop (list.length - MIN_DATA_POINTS)).map fun a => a.id
         severity := jnMin (jnMk 9 10)
           (jnAdd (jnMk 1 5) (jnDiv (jnOfNat (counts.getLastD 0)) (jnOfNat 10)))
         first_detected := (list.head?.map fun a => a.timestamp).getD ""
         occurrences := counts.length }]
    else []

def detectFrequencyEscalation (authorisations : List AuthorisationEntry)
    (actions : List ActionRecord) : List ScopeCreepPattern :=
  authorisations.flatMap (frequencyForAuth actions)

def domainDriftForAuth (actions : List ActionRecord) (auth : AuthorisationEntry) :
    List ScopeCreepPattern :=
  match auth.constraints.find? fun c => c.type = ConstraintType.domain_restriction with
  | none => []
  | some domainConstraint =>
    let allowed := (strSplitOn ',' (strToLower domainConstraint.parameter)).map strTrim
    let list := sortByTimestamp (actionsForAuth actions auth.id)
    if list.length < MIN_DATA_POINTS then []
    else
      let outside := list.filterMap fun a =>
        let domain := strToLower (jsToString ((coalesce (coalesce (pget a.parameters "domain")
          (pget a.parameters "category")) (pget a.parameters "type")).getD
            (JsVal.str "")))
        if domain = "" then none
        else if allowed.any fun d => jsIncludes domain d || jsIncludes d domain then none
        else some (a.id, a.timestamp)
      if outside.length ≥ MIN_DATA_POINTS then
        [{ id := ""
           pattern_type := ScopeCreepPatternType.domain_drift
           description := "Actions increasingly outside authorised domain (" ++
             strIntercalate ", " allowed ++ ")"
           evidence_ids := outside.map fun x => x.1
           severity := jnMin (jnMk 9 10)
             (jnAdd (jnMk 3 10) (jnMul (jnOfNat outside.length) (jnMk 1 10)))
           first_detected := (outside.head?.map fun x => x.2).getD ""
           occurrences := outside.length }]
      else []

def detectDomainDrift (authorisations : List AuthorisationEntry)
    (actions : List ActionRecord) : List ScopeCreepPattern :=
  authorisations.flatMap (domainDriftForAuth actions)

/-- The shape the facade stores in `violationsByAction`. -/
structure SimpleViolation where
  constraint_type : String
  severity : ViolationSeverity
deriving DecidableEq, Repr

def severityOrder : ViolationSeverity → Nat
  | ViolationSeverity.minor => 1
  | ViolationSeverity.major => 2
  | ViolationSeverity.critical => 3

/-- The grouping `byType` of `detectConstraintErosion`: keys in first
occurrence order, each list flattened in map-iteration order. -/
def erosionTypes (violationsByAction : List (String × List SimpleViolation)) : List String :=
  (violationsByAction.flatMap fun e => e.2.map fun v => v.constraint_type).dedup

def erosionListFor (violationsByAction : List (String × List SimpleViolation))
    (t : String) : List (String × ViolationSeverity) :=
  violationsByAction.flatMap fun e =>
    e.2.filterMap fun v =>
      if v.constraint_type = t then some (e.1, v.severity) else none

def detectConstraintErosion (_authorisations : List AuthorisationEntry)
    (_actions : List ActionRecord)
    (violationsByAction : List (String × List SimpleViolation)) : List ScopeCreepPattern :=
  (erosionTypes violationsByAction).flatMap fun t =>
    let list := erosionListFor violationsByAction t
    if list.length < MIN_DATA_POINTS then []
    else
      let ordered := list.map fun x => severityOrder x.2
      if strictIncrNat ordered then
        [{ id := ""
           pattern_type := ScopeCreepPatternType.constraint_erosion
           description := "Repeated violations of " ++ t ++ " with increasing severity"
           evidence_ids := list.map fun x => x.1
           severity := jnMk 7 10
           first_detected := ""
           occurrences := list.length }]
      else []

def detectAuthorityInflation (authorisations : List AuthorisationEntry)
    (actions : List ActionRecord)
    (matchStatusByAction : List (String × ConsentStatus)) : List ScopeCreepPattern :=
  let inflated := actions.filter fun a =>
    match matchStatusByAction.lookup a.id with
    | some s => s = ConsentStatus.exceeded ∨ s = ConsentStatus.revoked ∨
        s = ConsentStatus.expired
    | none => False
  if inflated.length < MIN_DATA_POINTS then []
  else
    let noAuth := inflated.filter fun a =>
      ¬ authorisations.any fun x => x.id = a.authorisation_id
    if noAuth.length ≥ MIN_DATA_POINTS then
      [{ id := ""
         pattern_type := ScopeCreepPatternType.authority_inflation
         description := "Actions without valid authorisation (no auth or exceeded/revoked/expired)"
         evidence_ids := noAuth.map fun a => a.id
         severity := jnMk 4 5
         first_detected := (noAuth.head?.map fun a => a.timestamp).getD ""
         occurrences := noAuth.length }]
    else []

structure DriftDetectorInput where
  authorisations : List AuthorisationEntry
  actions : List ActionRecord
  violationsByAction : List (String × List SimpleViolation)
  matchStatusByAction : List (String × ConsentStatus)

/-- Standalone `detectScopeCreep(input)` of the drift-detector module. -/
def detectScopeCreep (input : DriftDetectorInput) : List ScopeCreepPattern :=
  (detectGradualExpansion input.authorisations input.actions ++
   detectFrequencyEscalation input.authorisations input.actions ++
   detectDomainDrift input.authorisations input.actions ++
   detectConstraintErosion input.authorisations input.actions input.violationsByAction ++
   detectAuthorityInflation input.authorisations input.actions input.matchStatusByAction
  ).filter fun p => p.evidence_ids.length ≥ MIN_DATA_POINTS

/-- `Map.set` on an association list: overwrite in place, else append. -/
def setAssoc {β : Type} (m : List (String × β)) (k : String) (v : β) :
    List (String × β) :=
  if m.any fun p => p.1 = k then
    m.map fun p => if p.1 = k then (k, v) else p
  else m ++ [(k, v)]

/-- The two per-action maps built by the facade's `detectScopeCreep()`. -/
def facadeStatusMap (ms : List ConsentMatch) : List (String × ConsentStatus) :=
  ms.foldl (fun m mm => setAssoc m mm.action_id mm.status) []

def facadeViolationsMap (ms : List ConsentMatch) :
    List (String × List SimpleViolation) :=
  ms.foldl
    (fun m mm =>
      if mm.violations.length > 0 then
        setAssoc m mm.action_id (mm.violations.map fun v =>
          { constraint_type := v.constraint_type, severity := v.severity })
      else m)
    []

/-- The facade's `ConsentLedger.detectScopeCreep()`. -/
def ledgerDetectScopeCreep (L : Ledger) (now : String) : List ScopeCreepPattern :=
  let ms := checkAllActions L now
  detectScopeCreep
    { authorisations := L.authorisations
      actions := L.actions
      violationsByAction := facadeViolationsMap ms
      matchStatusByAction := facadeStatusMap ms }

/-! ## Operation sequences (for whole-ledger invariants) -/

/-- One facade write operation, with its generated id and timestamp. -/
inductive LedgerOp
  | authoriseOp (f : AuthoriseFields) (id timestamp : String)
  | recordOp (f : ActionFields) (id timestamp : String)

def applyOp (L : Ledger) : LedgerOp → Ledger
  | LedgerOp.authoriseOp f id ts => (authorise L f id ts).2
  | LedgerOp.recordOp f id ts => (recordAction L f id ts).2

def applyOps (L : Ledger) (ops : List LedgerOp) : Ledger :=
  ops.foldl applyOp L

def emptyLedger (principal_id : String) : Ledger :=
  ⟨principal_id, [], []⟩

/-- The running expected-previous pointer after walking a whole chain
(genesis for the empty chain, else the last element's hash). -/
def chainTail {α : Type} (hashOf : α → HashVal) : HashVal → List α → HashVal
  | p, [] => p
  | _, a :: l => chainTail hashOf (hashOf a) l

/-- Modelled from the spec: the number of recorded actions claiming a
given authorisation whose timestamp falls in a given 24-hour bucket
(§4.4 bucket width) — the per-period count §4.3 says the facade supplies
for `frequency_limit`.  Missing from src: `buildMatcherContext` computes
a bucket key but never uses it, so no per-period count exists in code. -/
def specPeriodCount (L : Ledger) (authId : String) (bucket : Int) : Nat :=
  (L.actions.filter fun a => a.authorisation_id = authId ∧ bucketOf a.timestamp = bucket).length

/-! ## Concrete fixtures used by witnesses and counterexamples -/

def cMon500 : ConsentConstraint :=
  ⟨ConstraintType.monetary_limit, "Maximum 500 per booking", "500"⟩

def authFieldsMon : AuthoriseFields :=
  ⟨"user-1", "travel-agent", ConsentScope.categorical, "Book flights under 500",
    [cMon500], none⟩

def ledger0 : Ledger := emptyLedger "user-1"

def ledgerA : Ledger := (authorise ledger0 authFieldsMon "auth-1" "1000").2

def authMon : AuthorisationEntry := (authorise ledger0 authFieldsMon "auth-1" "1000").1

def payFields (amount : Nat) : ActionFields :=
  ⟨"travel-agent", "auth-1", "flight_booking", "Booked flight",
    [("amount", JsVal.num (jnOfNat amount))], none⟩

def act320 : ActionRecord := (recordAction ledgerA (payFields 320) "act-320" "2000").1

def act1200 : ActionRecord := (recordAction ledgerA (payFields 1200) "act-1200" "2000").1

def ledgerRA : Ledger := (recordAction ledgerA (payFields 320) "act-320" "2000").2

def ledgerRevoked : Ledger :=
  ((revoke ledgerRA "auth-1" "3000").toOption.map Prod.snd).getD ledgerRA

def authRevokedE : AuthorisationEntry :=
  ((revoke ledgerRA "auth-1" "3000").toOption.map Prod.fst).getD authMon

def apprCon : ConsentConstraint :=
  ⟨ConstraintType.approval_required, "Manager sign-off", ""⟩

def freqAuthFields : AuthoriseFields :=
  ⟨"user-1", "agent-1", ConsentScope.categorical, "Queries",
    [⟨ConstraintType.frequency_limit, "Max 1 per day", "1"⟩], none⟩

def qFields : ActionFields := ⟨"agent-1", "auth-f", "query", "Query", [], none⟩

def ledgerF : Ledger :=
  let l0 := (authorise (emptyLedger "user-1") freqAuthFields "auth-f" "0").2
  let l1 := (recordAction l0 qFields "act-f1" "0").2
  (recordAction l1 qFields "act-f2" "172800000").2

def auth2Fields : AuthoriseFields :=
  ⟨"user-1", "agent-1", ConsentScope.standing, "Second authorisation", [], none⟩

def ledgerB1 : Ledger := (authorise (emptyLedger "user-1") authFieldsMon "a1" "100").2

def authB1 : AuthorisationEntry := (authorise (emptyLedger "user-1") authFieldsMon "a1" "100").1

def ledgerB2 : Ledger := (authorise ledgerB1 auth2Fields "a2" "200").2

def authB2 : AuthorisationEntry := (authorise ledgerB1 auth2Fields "a2" "200").1

def payAct (id ts : String) (amount : Nat) : ActionRecord :=
  ⟨id, ts, "travel-agent", "auth-1", "pay", "Pay",
    [("amount", JsVal.num (jnOfNat amount))], none, HashVal.genesis, HashVal.genesis⟩

def creepActsUp : List ActionRecord :=
  [payAct "c1" "100" 100, payAct "c2" "200" 250, payAct "c3" "300" 400]

def creepActsDown : List ActionRecord :=
  [payAct "d1" "100" 400, payAct "d2" "200" 250, payAct "d3" "300" 100]

def payFieldsA1 (amount : Nat) : ActionFields :=
  ⟨"travel-agent", "a1", "flight_booking", "Booked flight",
    [("amount", JsVal.num (jnOfNat amount))], none⟩

def ledgerTwoActs : Ledger :=
  let l1 := (recordAction ledgerB1 (payFieldsA1 100) "w1" "100").2
  (recordAction l1 (payFieldsA1 200) "w2" "200").2

/-! ## Theorems -/

/-- C10: the export/import roundtrip `fromJSON (toJSON L)` succeeds and
reproduces a ledger with the identical ordered authorisation list, the
identical ordered action list, and an identical `verify()` result. -/
theorem fromJSON_toJSON_roundtrip (L : Ledger) :
    ∃ L', fromJSON (toJSON L) = Except.ok L' ∧
      L'.authorisations = L.authorisations ∧
      L'.actions = L.actions ∧
      verify L' = verify L := by
  refine ⟨L, ?_, rfl, rfl, rfl⟩
  simp [fromJSON, toJSON]

/-- C4: an action whose referenced authorisation exists and is revoked at
evaluation time yields status `revoked` with exactly one critical
`revocation` violation, regardless of expiry (checked first) and without
evaluating any constraint. -/
theorem checkConsent_revoked (L : Ledger) (action_id now : String)
    (action : ActionRecord) (auth : AuthorisationEntry)
    (hact : findAction L action_id = some action)
    (hauth : findAuth L action.authorisation_id = some auth)
    (hrev : auth.revoked = true) :
    checkConsent L action_id now = Except.ok
      { authorisation_id := auth.id
        action_id := action.id
        status := ConsentStatus.revoked
        violations := [{ constraint_type := "revocation"
                         expected := "active authorisation"
                         actual := "revoked at " ++ jsNullableString auth.revoked_at
                         severity := ViolationSeverity.critical
                         description := "Action performed after authorisation was revoked" }]
        matched_at := now } := by
  simp [checkConsent, hact, hauth, matchConsent, hrev]

/-- C4 witness: a concrete ledger whose authorisation was (also expired
and constraint-carrying) revoked before evaluation. -/
theorem checkConsent_revoked_witness :
    checkConsent ledgerRevoked "act-320" "4000" = Except.ok
      { authorisation_id := "auth-1"
        action_id := "act-320"
        status := ConsentStatus.revoked
        violations := [{ constraint_type := "revocation"
                         expected := "active authorisation"
                         actual := "revoked at 3000"
                         severity := ViolationSeverity.critical
                         description := "Action performed after authorisation was revoked" }]
        matched_at := "4000" } :=
  (checkConsent_revoked ledgerRevoked "act-320" "4000" act320 authRevokedE
    (by decide) (by decide) (by decide)).trans (congrArg Except.ok (by decide))

/-- C3: recordAction is total even when the authorisation id matches no
authorisation: the action is appended to the action chain and a
subsequent checkConsent returns `exceeded` with exactly one critical
violation of constraint-type `authorisation`. -/
theorem recordAction_unknown_auth (L : Ledger) (f : ActionFields)
    (id timestamp now : String)
    (hno : ∀ a ∈ L.authorisations, a.id ≠ f.authorisation_id) :
    (recordAction L f id timestamp).2.actions =
      L.actions ++ [(recordAction L f id timestamp).1] ∧
    checkConsent (recordAction L f id timestamp).2 id now = Except.ok
      { authorisation_id := f.authorisation_id
        action_id := id
        status := ConsentStatus.exceeded
        violations := [{ constraint_type := "authorisation"
                         expected := "valid authorisation"
                         actual := "none"
                         severity := ViolationSeverity.critical
                         description := "Action has no matching authorisation" }]
        matched_at := now } := by
  refine ⟨rfl, ?_⟩
  have hfind : findAction (recordAction L f id timestamp).2 id =
      some (recordAction L f id timestamp).1 := by
    simp [findAction, recordAction, List.reverse_append]
  have hauth : findAuth (recordAction L f id timestamp).2
      (recordAction L f id timestamp).1.authorisation_id = none := by
    simp only [findAuth, recordAction]
    rw [List.find?_eq_none]
    intro a ha
    simp only [decide_eq_true_eq]
    exact hno a (List.mem_reverse.mp ha)
  unfold checkConsent
  rw [hfind]
  show Except.ok (matchConsent (findAuth (recordAction L f id timestamp).2
    (recordAction L f id timestamp).1.authorisation_id) (recordAction L f id timestamp).1
    (some (buildMatcherContext (recordAction L f id timestamp).2)) now) = _
  rw [hauth]
  rfl

/-- C3 witness: recording an action against the id `nonexistent-id` on a
ledger holding one authorisation with id `auth-1`. -/
theorem recordAction_unknown_auth_witness :
    (recordAction ledgerA ⟨"travel-agent", "nonexistent-id", "book", "Book",
        [], none⟩ "act-x" "2000").2.actions =
      ledgerA.actions ++ [(recordAction ledgerA ⟨"travel-agent", "nonexistent-id", "book",
        "Book", [], none⟩ "act-x" "2000").1] ∧
    checkConsent (recordAction ledgerA ⟨"travel-agent", "nonexistent-id", "book", "Book",
        [], none⟩ "act-x" "2000").2 "act-x" "2500" = Except.ok
      { authorisation_id := "nonexistent-id"
        action_id := "act-x"
        status := ConsentStatus.exceeded
        violations := [{ constraint_type := "authorisation"
                         expected := "valid authorisation"
                         actual := "none"
                         severity := ViolationSeverity.critical
                         description := "Action has no matching authorisation" }]
        matched_at := "2500" } :=
  recordAction_unknown_auth ledgerA ⟨"travel-agent", "nonexistent-id", "book", "Book",
    [], none⟩ "act-x" "2000" "2500" (by decide)

/-- C6 counterexample: an `approval_required` constraint evaluated
against parameters containing neither `approval_obtained` nor `approved`
produces a (major) violation — not "no violation" as claimed. -/
theorem checkApprovalRequired_missing_keys_violates :
    checkApprovalRequired apprCon [] =
      some { constraint_type := "approval_required"
             expected := "approval obtained"
             actual := "none"
             severity := ViolationSeverity.major
             description := "Manager sign-off" } := by
  decide

/-- C5: monetary_limit semantics — with a parseable limit L and an
action value a looked up under amount/value/cost, `a ≤ L` yields no
violation and `a > L` yields one of severity critical iff `a > 1.5·L`
(else major); within `matchConsent` (given a live, non-emergency
authorisation) violations are exactly the accumulated evaluator outputs;
concretely, against limit 500 an amount of 320 is `within_bounds` and an
amount of 1200 is `exceeded` with a single critical monetary_limit
violation. -/
theorem monetary_limit_semantics :
    (∀ (c : ConsentConstraint) (ps : Params) (L a : JNum),
      jsParseFloat c.parameter = some L →
      parseNumber (coalesce (coalesce (pget ps "amount") (pget ps "value"))
        (pget ps "cost")) = some a →
      (jnLe a L = true → checkMonetaryLimit c ps = none) ∧
      (jnLt L a = true → checkMonetaryLimit c ps = some
        { constraint_type := "monetary_limit"
          expected := "≤ " ++ c.parameter
          actual := jnToString a
          severity := if jnLt (jnMul L (jnMk 3 2)) a then ViolationSeverity.critical
                      else ViolationSeverity.major
          description := c.description })) ∧
    (∀ (auth : AuthorisationEntry) (action : ActionRecord)
      (ctx : Option MatcherContext) (now : String) (c : ConsentConstraint),
      auth.revoked = false →
      expiryBefore auth.expires_at action.timestamp = false →
      auth.scope ≠ ConsentScope.emergency →
      c.type = ConstraintType.monetary_limit →
      (matchConsent (some auth) action ctx now).violations =
        auth.constraints.filterMap (evalConstraint auth action ctx) ∧
      evalConstraint auth action ctx c = checkMonetaryLimit c action.parameters) ∧
    (matchConsent (some authMon) act320 none "now").status = ConsentStatus.within_bounds ∧
    (matchConsent (some authMon) act1200 none "now").status = ConsentStatus.exceeded ∧
    (matchConsent (some authMon) act1200 none "now").violations =
      [{ constraint_type := "monetary_limit", expected := "≤ 500", actual := "1200",
         severity := ViolationSeverity.critical,
         description := "Maximum 500 per booking" }] := by
  refine ⟨?_, ?_, by decide, by decide, by decide⟩
  · intro c ps L a hL ha
    have hparse : parseNumber (some (JsVal.str c.parameter)) = some L := by
      simpa [parseNumber] using hL
    constructor
    · intro hle
      have hflt : jnLt L a = false := by
        simp only [jnLe, decide_eq_true_eq] at hle
        simp only [jnLt, decide_eq_false_iff_not]
        omega
      simp [checkMonetaryLimit, hparse, ha, hflt]
    · intro hlt
      simp [checkMonetaryLimit, hparse, ha, hlt]
  · intro auth action ctx now c h1 h2 h3 h4
    constructor
    · simp [matchConsent, h1, h2, h3]
    · simp [evalConstraint, h4]

/-- C5 witness: the general clauses instantiated at the fixture
constraint (limit 500) and concrete amounts 320 and 1200. -/
theorem monetary_limit_semantics_witness :
    checkMonetaryLimit cMon500 [("amount", JsVal.num (jnOfNat 320))] = none ∧
    checkMonetaryLimit cMon500 [("amount", JsVal.num (jnOfNat 1200))] = some
      { constraint_type := "monetary_limit"
        expected := "≤ 500"
        actual := "1200"
        severity := ViolationSeverity.critical
        description := "Maximum 500 per booking" } ∧
    (matchConsent (some authMon) act320 none "now").violations =
      authMon.constraints.filterMap (evalConstraint authMon act320 none) := by
  have h := monetary_limit_semantics
  refine ⟨?_, ?_, ?_⟩
  · exact (h.1 cMon500 [("amount", JsVal.num (jnOfNat 320))] (jnOfNat 500) (jnOfNat 320)
      (by decide) (by decide)).1 (by decide)
  · exact ((h.1 cMon500 [("amount", JsVal.num (jnOfNat 1200))] (jnOfNat 500) (jnOfNat 1200)
      (by decide) (by decide)).2 (by decide)).trans (by decide)
  · exact (h.2.1 authMon act320 none "now" cMon500 (by decide) (by decide)
      (by decide) (by decide)).1

/-- C6 (amended): for monetary_limit, domain_restriction, time_window,
recipient_restriction and frequency_limit, missing lookup fields or
unparseable numeric/date inputs produce no violation; the exception is
approval_required, which treats missing approval keys as
approval-not-obtained and produces a major violation. -/
theorem evaluators_not_applicable_amended :
    (∀ (c : ConsentConstraint) (ps : Params),
      jsParseFloat c.parameter = none → checkMonetaryLimit c ps = none) ∧
    (∀ (c : ConsentConstraint) (ps : Params),
      parseNumber (coalesce (coalesce (pget ps "amount") (pget ps "value"))
        (pget ps "cost")) = none → checkMonetaryLimit c ps = none) ∧
    (∀ (c : ConsentConstraint) (ps : Params),
      pget ps "domain" = none → pget ps "category" = none → pget ps "type" = none →
      checkDomainRestriction c ps = none) ∧
    (∀ (c : ConsentConstraint) (ts : String),
      jsParseDate (((strSplitOn '/' c.parameter).map strTrim).getD 0 "") = none →
      checkTimeWindow c ts = none) ∧
    (∀ (c : ConsentConstraint) (ts : String) (sd ed : Int),
      jsParseDate (((strSplitOn '/' c.parameter).map strTrim).getD 0 "") = some sd →
      jsParseDate (((strSplitOn '/' c.parameter).map strTrim).getD 1 "") = some ed →
      jsParseDate ts = none → checkTimeWindow c ts = none) ∧
    (∀ (c : ConsentConstraint) (ps : Params),
      pget ps "recipient" = none → pget ps "to" = none → pget ps "payee" = none →
      checkRecipientRestriction c ps = none) ∧
    (∀ (c : ConsentConstraint) (ps : Params) (count : Option Nat),
      jsParseFloat c.parameter = none →
      checkFrequencyLimit c ps ⟨count, none⟩ = none) ∧
    (∀ (c : ConsentConstraint) (ps : Params),
      pget ps "approval_obtained" = none → pget ps "approved" = none →
      checkApprovalRequired c ps = some
        { constraint_type := "approval_required"
          expected := "approval obtained"
          actual := "none"
          severity := ViolationSeverity.major
          description := c.description }) := by
  have hed : jsParseDate "" = none := by decide
  refine ⟨?_, ?_, ?_, ?_, ?_, ?_, ?_, ?_⟩
  · intro c ps h
    simp [checkMonetaryLimit, parseNumber, h]
  · intro c ps h
    cases hL : parseNumber (some (JsVal.str c.parameter)) with
    | none => simp [checkMonetaryLimit, hL]
    | some l => simp [checkMonetaryLimit, hL, h]
  · intro c ps h1 h2 h3
    simp only [checkDomainRestriction, h1, h2, h3, coalesce, Option.getD_none]
    rfl
  · intro c ts h
    simp only [checkTimeWindow]
    split
    · rfl
    · rw [h]
  · intro c ts sd ed h1 h2 h3
    have hne : ¬ (((strSplitOn '/' c.parameter).map strTrim).getD 0 "" = "" ∨
        ((strSplitOn '/' c.parameter).map strTrim).getD 1 "" = "") := by
      rintro (he | he)
      · rw [he, hed] at h1; cases h1
      · rw [he, hed] at h2; cases h2
    simp only [checkTimeWindow]
    split
    · next hc => exact absurd hc hne
    · rw [h1, h2, h3]
  · intro c ps h1 h2 h3
    simp only [checkRecipientRestriction, h1, h2, h3, coalesce, Option.getD_none]
    rfl
  · intro c ps count h
    simp [checkFrequencyLimit, parseNumber, h]
  · intro c ps h1 h2
    simp [checkApprovalRequired, coalesce, h1, h2, jsStringOrNone]

/-- C6 witness: amended clauses instantiated concretely — an unparseable
monetary limit is not applicable, and absent approval keys yield the
major approval_required violation. -/
theorem evaluators_not_applicable_amended_witness :
    checkMonetaryLimit ⟨ConstraintType.monetary_limit, "m", "high"⟩ [] = none ∧
    checkTimeWindow ⟨ConstraintType.time_window, "w", "whenever"⟩ "100" = none ∧
    checkApprovalRequired apprCon [("amount", JsVal.num (jnOfNat 5))] = some
      { constraint_type := "approval_required"
        expected := "approval obtained"
        actual := "none"
        severity := ViolationSeverity.major
        description := "Manager sign-off" } := by
  have h := evaluators_not_applicable_amended
  refine ⟨?_, ?_, ?_⟩
  · exact h.1 ⟨ConstraintType.monetary_limit, "m", "high"⟩ [] (by decide)
  · exact h.2.2.2.1 ⟨ConstraintType.time_window, "w", "whenever"⟩ "100" (by decide)
  · exact (h.2.2.2.2.2.2.2 apprCon [("amount", JsVal.num (jnOfNat 5))]
      (by decide) (by decide)).trans (by decide)

/-- C7: evidence of the divergence — on a ledger with two actions under
one authorisation recorded 48 hours apart (different 24-hour buckets),
`buildMatcherContext` supplies the all-time count 2 (its computed bucket
key is dead code), whereas the per-period count required by the claim is
1 in each bucket; consequently `checkConsent` reports a frequency_limit
violation against limit 1. -/
theorem buildMatcherContext_counts_all_periods :
    (buildMatcherContext ledgerF).actionCountByAuthorisationInPeriod = [("auth-f", 2)] ∧
    bucketOf "0" ≠ bucketOf "172800000" ∧
    specPeriodCount ledgerF "auth-f" (bucketOf "0") = 1 ∧
    specPeriodCount ledgerF "auth-f" (bucketOf "172800000") = 1 ∧
    (checkConsent ledgerF "act-f1" "999").toOption.map (fun m => m.status) =
      some ConsentStatus.exceeded := by
  decide

theorem chainOk_append_iff {α : Type} (payload : α → String) (hashOf prevOf : α → HashVal)
    (x : α) : ∀ (l : List α) (p : HashVal),
    chainOk payload hashOf prevOf p (l ++ [x]) = true ↔
      (chainOk payload hashOf prevOf p l = true ∧
       prevOf x = chainTail hashOf p l ∧
       hashOf x = chainHash (prevOf x) (payload x)) := by
  intro l
  induction l with
  | nil =>
    intro p
    simp [chainOk, chainTail, Bool.and_eq_true, decide_eq_true_eq]
  | cons a t ih =>
    intro p
    simp only [List.cons_append, chainOk, Bool.and_eq_true, decide_eq_true_eq, chainTail]
    rw [List.append_eq, ih (hashOf a)]
    tauto

theorem getLast_hash_eq_chainTail {α : Type} (hashOf : α → HashVal) :
    ∀ (l : List α) (p : HashVal),
    (l.getLast?.map hashOf).getD p = chainTail hashOf p l := by
  intro l
  induction l with
  | nil => intro p; rfl
  | cons a t ih =>
    intro p
    cases t with
    | nil => rfl
    | cons b u =>
      rw [List.getLast?_cons_cons]
      exact ih (hashOf a)

theorem chainOk_hash {α : Type} (payload : α → String) (hashOf prevOf : α → HashVal) :
    ∀ (l : List α) (p : HashVal), chainOk payload hashOf prevOf p l = true →
      ∀ x ∈ l, hashOf x = chainHash (prevOf x) (payload x) := by
  intro l
  induction l with
  | nil => intro p _ x hx; cases hx
  | cons a t ih =>
    intro p h x hx
    rw [chainOk, Bool.and_eq_true, Bool.and_eq_true] at h
    rcases List.mem_cons.mp hx with rfl | hxt
    · exact decide_eq_true_eq.mp h.1.2
    · exact ih (hashOf a) h.2 x hxt

theorem chainOk_head {α : Type} (payload : α → String) (hashOf prevOf : α → HashVal)
    (l : List α) (p : HashVal) (h : chainOk payload hashOf prevOf p l = true)
    (x : α) (hx : l.head? = some x) : prevOf x = p := by
  cases l with
  | nil => cases hx
  | cons a t =>
    cases hx
    rw [chainOk, Bool.and_eq_true, Bool.and_eq_true] at h
    exact decide_eq_true_eq.mp h.1.1

theorem chainOk_link {α : Type} (payload : α → String) (hashOf prevOf : α → HashVal) :
    ∀ (l₁ : List α) (x y : α) (l₂ : List α) (p : HashVal),
      chainOk payload hashOf prevOf p (l₁ ++ x :: y :: l₂) = true →
      prevOf y = hashOf x := by
  intro l₁
  induction l₁ with
  | nil =>
    intro x y l₂ p h
    rw [List.nil_append, chainOk, Bool.and_eq_true, Bool.and_eq_true] at h
    have h2 := h.2
    rw [chainOk, Bool.and_eq_true, Bool.and_eq_true] at h2
    exact decide_eq_true_eq.mp h2.1.1
  | cons a t ih =>
    intro x y l₂ p h
    rw [List.cons_append, chainOk, Bool.and_eq_true, Bool.and_eq_true] at h
    exact ih x y l₂ (hashOf a) h.2

theorem applyOps_chainOk (ops : List LedgerOp) :
    ∀ L : Ledger,
      authChainOk GENESIS L.authorisations = true →
      actionChainOk GENESIS L.actions = true →
      authChainOk GENESIS (applyOps L ops).authorisations = true ∧
      actionChainOk GENESIS (applyOps L ops).actions = true := by
  induction ops with
  | nil => intro L h1 h2; exact ⟨h1, h2⟩
  | cons op rest ih =>
    intro L h1 h2
    have hstep : authChainOk GENESIS (applyOp L op).authorisations = true ∧
        actionChainOk GENESIS (applyOp L op).actions = true := by
      cases op with
      | authoriseOp f id ts =>
        refine ⟨?_, h2⟩
        show chainOk authorisationPayload (fun a => a.hash) (fun a => a.previous_hash)
          GENESIS (L.authorisations ++ [(authorise L f id ts).1]) = true
        rw [chainOk_append_iff]
        refine ⟨h1, ?_, rfl⟩
        show (L.authorisations.getLast?.map fun a => a.hash).getD GENESIS =
          chainTail (fun a => a.hash) GENESIS L.authorisations
        exact getLast_hash_eq_chainTail (fun a => a.hash) L.authorisations GENESIS
      | recordOp f id ts =>
        refine ⟨h1, ?_⟩
        show chainOk actionPayload (fun a => a.hash) (fun a => a.previous_hash)
          GENESIS (L.actions ++ [(recordAction L f id ts).1]) = true
        rw [chainOk_append_iff]
        refine ⟨h2, ?_, rfl⟩
        show (L.actions.getLast?.map fun a => a.hash).getD GENESIS =
          chainTail (fun a => a.hash) GENESIS L.actions
        exact getLast_hash_eq_chainTail (fun a => a.hash) L.actions GENESIS
    exact ih (applyOp L op) hstep.1 hstep.2

/-- C1: after any sequence of `authorise` and `recordAction` calls on a
fresh ledger (no revocations), every entry of each chain recomputes to
its stored hash, the first entry of each chain points at the genesis
sentinel, every later entry points at its predecessor's hash, and
`verify` returns valid with the two chain lengths as counts (the empty
sequence giving a trivially valid empty ledger with counts 0). -/
theorem ledger_chain_invariant (pid : String) (ops : List LedgerOp) :
    verify (applyOps (emptyLedger pid) ops) =
      ⟨true, (applyOps (emptyLedger pid) ops).authorisations.length,
        (applyOps (emptyLedger pid) ops).actions.length⟩ ∧
    (∀ a ∈ (applyOps (emptyLedger pid) ops).authorisations,
      a.hash = chainHash a.previous_hash (authorisationPayload a)) ∧
    (∀ a, (applyOps (emptyLedger pid) ops).authorisations.head? = some a →
      a.previous_hash = GENESIS) ∧
    (∀ l₁ x y l₂, (applyOps (emptyLedger pid) ops).authorisations = l₁ ++ x :: y :: l₂ →
      y.previous_hash = x.hash) ∧
    (∀ a ∈ (applyOps (emptyLedger pid) ops).actions,
      a.hash = chainHash a.previous_hash (actionPayload a)) ∧
    (∀ a, (applyOps (emptyLedger pid) ops).actions.head? = some a →
      a.previous_hash = GENESIS) ∧
    (∀ l₁ x y l₂, (applyOps (emptyLedger pid) ops).actions = l₁ ++ x :: y :: l₂ →
      y.previous_hash = x.hash) := by
  have h := applyOps_chainOk ops (emptyLedger pid) rfl rfl
  refine ⟨?_, ?_, ?_, ?_, ?_, ?_, ?_⟩
  · simp [verify, h.1, h.2]
  · exact chainOk_hash authorisationPayload (fun a => a.hash) (fun a => a.previous_hash)
      _ GENESIS h.1
  · exact fun a ha => chainOk_head authorisationPayload (fun a => a.hash)
      (fun a => a.previous_hash) _ GENESIS h.1 a ha
  · intro l₁ x y l₂ he
    exact chainOk_link authorisationPayload (fun a => a.hash) (fun a => a.previous_hash)
      l₁ x y l₂ GENESIS (by rw [← he]; exact h.1)
  · exact chainOk_hash actionPayload (fun a => a.hash) (fun a => a.previous_hash)
      _ GENESIS h.2
  · exact fun a ha => chainOk_head actionPayload (fun a => a.hash)
      (fun a => a.previous_hash) _ GENESIS h.2 a ha
  · intro l₁ x y l₂ he
    exact chainOk_link actionPayload (fun a => a.hash) (fun a => a.previous_hash)
      l₁ x y l₂ GENESIS (by rw [← he]; exact h.2)

/-- C1 witness: the invariant instantiated on a two-operation history
(one authorisation, one action), with the membership hypothesis
discharged on the concrete recorded action. -/
theorem ledger_chain_invariant_witness :
    verify (applyOps (emptyLedger "user-1")
      [LedgerOp.authoriseOp authFieldsMon "auth-1" "1000",
       LedgerOp.recordOp (payFields 320) "act-320" "2000"]) = ⟨true, 1, 1⟩ ∧
    act320.hash = chainHash act320.previous_hash (actionPayload act320) := by
  have h := ledger_chain_invariant "user-1"
    [LedgerOp.authoriseOp authFieldsMon "auth-1" "1000",
     LedgerOp.recordOp (payFields 320) "act-320" "2000"]
  exact ⟨h.1.trans (by decide), h.2.2.2.2.1 act320 (by decide)⟩

theorem authorisationPayload_revoke_ne (e : AuthorisationEntry) (now : String)
    (h : e.revoked = false) :
    authorisationPayload e ≠
      authorisationPayload { e with revoked := true, revoked_at := some now } := by
  intro heq
  have hd := congrArg String.data heq
  simp only [authorisationPayload, h, cond_false, cond_true, String.data_append,
    List.append_assoc, Option.getD_some] at hd
  simp at hd

theorem findAuth_decomp (pid : String) (pre post : List AuthorisationEntry)
    (auth : AuthorisationEntry) (acts : List ActionRecord)
    (hpost : ∀ x ∈ post, x.id ≠ auth.id) :
    findAuth ⟨pid, pre ++ auth :: post, acts⟩ auth.id = some auth := by
  unfold findAuth
  simp only [List.reverse_append, List.reverse_cons, List.append_assoc,
    List.singleton_append]
  rw [List.find?_append]
  have hnone : post.reverse.find? (fun a => decide (a.id = auth.id)) = none := by
    rw [List.find?_eq_none]
    intro x hx
    simp only [decide_eq_true_eq]
    exact hpost x (List.mem_reverse.mp hx)
  rw [hnone]
  simp [List.find?_cons]

theorem findIdx_decomp (pre post : List AuthorisationEntry) (auth : AuthorisationEntry)
    (hpre : ∀ x ∈ pre, x.id ≠ auth.id) :
    ((pre ++ auth :: post).findIdx fun a => a.id = auth.id) = pre.length := by
  induction pre with
  | nil => simp [List.findIdx_cons]
  | cons a t ih =>
    have hne : a.id ≠ auth.id := hpre a (List.mem_cons_self a t)
    have ih' := ih fun x hx => hpre x (List.mem_cons_of_mem a hx)
    simp [List.findIdx_cons, hne, ih']

theorem set_decomp {α : Type} (pre : List α) (a b : α) (post : List α) :
    (pre ++ a :: post).set pre.length b = pre ++ b :: post := by
  induction pre with
  | nil => rfl
  | cons x t ih => simp [List.set, ih]

/-- C2: starting from a ledger whose verify() is valid and whose
authorisation ids are distinct, revoking a non-revoked authorisation
keeps verify() valid when the authorisation is the last element of the
authorisation chain, and makes verify() invalid when at least one entry
follows it (the successor's stored previous_hash no longer matches the
revoked entry's recomputed hash). -/
theorem revoke_verify (pid now : String) (acts : List ActionRecord)
    (pre post : List AuthorisationEntry) (auth : AuthorisationEntry)
    (hnodup : (((pre ++ auth :: post).map fun a => a.id)).Nodup)
    (hrev : auth.revoked = false)
    (hvalid : (verify ⟨pid, pre ++ auth :: post, acts⟩).valid = true) :
    ∃ upd L', revoke ⟨pid, pre ++ auth :: post, acts⟩ auth.id now =
        Except.ok (upd, L') ∧
      L'.authorisations = pre ++ upd :: post ∧
      (post = [] → (verify L').valid = true) ∧
      (post ≠ [] → (verify L').valid = false) := by
  have hnodup' := hnodup
  rw [List.map_append, List.map_cons, List.nodup_append] at hnodup'
  have hpre : ∀ x ∈ pre, x.id ≠ auth.id := by
    intro x hx he
    refine hnodup'.2.2 (List.mem_map_of_mem (fun a => a.id) hx) ?_
    rw [he]
    exact List.mem_cons_self _ _
  have hpost : ∀ x ∈ post, x.id ≠ auth.id := by
    intro x hx he
    have hc := hnodup'.2.1
    rw [List.nodup_cons] at hc
    refine hc.1 ?_
    rw [← he]
    exact List.mem_map_of_mem (fun a => a.id) hx
  have hfind := findAuth_decomp pid pre post auth acts hpost
  have hidx := findIdx_decomp pre post auth hpre
  have hvs : authChainOk GENESIS (pre ++ auth :: post) = true ∧
      actionChainOk GENESIS acts = true := by
    have h2 : (authChainOk GENESIS (pre ++ auth :: post) &&
        actionChainOk GENESIS acts) = true := hvalid
    rw [Bool.and_eq_true] at h2
    exact h2
  refine ⟨{ { auth with revoked := true, revoked_at := some now } with
      hash := chainHash auth.previous_hash
        (authorisationPayload { auth with revoked := true, revoked_at := some now }) },
    ⟨pid, pre ++ { { auth with revoked := true, revoked_at := some now } with
      hash := chainHash auth.previous_hash
        (authorisationPayload { auth with revoked := true, revoked_at := some now }) }
      :: post, acts⟩, ?_, rfl, ?_, ?_⟩
  · unfold revoke
    rw [hfind]
    simp only [hrev, Bool.false_eq_true, if_false, hidx, set_decomp]
  · intro hpost0
    subst hpost0
    have horig := (chainOk_append_iff authorisationPayload (fun a => a.hash)
      (fun a => a.previous_hash) auth pre GENESIS).mp hvs.1
    have hnew : authChainOk GENESIS (pre ++
        [{ { auth with revoked := true, revoked_at := some now } with
          hash := chainHash auth.previous_hash
            (authorisationPayload { auth with revoked := true, revoked_at := some now }) }])
        = true := by
      rw [authChainOk] at *
      exact (chainOk_append_iff authorisationPayload (fun a => a.hash)
        (fun a => a.previous_hash) _ pre GENESIS).mpr ⟨horig.1, horig.2.1, rfl⟩
    simp [verify, hnew, hvs.2]
  · intro hpostne
    cases post with
    | nil => exact absurd rfl hpostne
    | cons b rest =>
      cases hb : authChainOk GENESIS (pre ++
          { { auth with revoked := true, revoked_at := some now } with
            hash := chainHash auth.previous_hash
              (authorisationPayload { auth with revoked := true, revoked_at := some now }) }
          :: b :: rest) with
      | false => simp [verify, hb]
      | true =>
        exfalso
        have hlink_new := chainOk_link authorisationPayload (fun a => a.hash)
          (fun a => a.previous_hash) pre _ b rest GENESIS hb
        have hlink_old := chainOk_link authorisationPayload (fun a => a.hash)
          (fun a => a.previous_hash) pre auth b rest GENESIS hvs.1
        have hhash_old := chainOk_hash authorisationPayload (fun a => a.hash)
          (fun a => a.previous_hash) (pre ++ auth :: b :: rest) GENESIS hvs.1 auth
          (by simp)
        have heq : chainHash auth.previous_hash (authorisationPayload auth) =
            chainHash auth.previous_hash
              (authorisationPayload { auth with revoked := true, revoked_at := some now }) := by
          rw [← hhash_old, ← hlink_old, hlink_new]
        have hpl : authorisationPayload auth =
            authorisationPayload { auth with revoked := true, revoked_at := some now } := by
          have := heq
          simp only [chainHash, HashVal.node.injEq] at this
          exact this.2
        exact authorisationPayload_revoke_ne auth now hrev hpl

/-- C2 witness: a two-authorisation valid ledger; revoking the first
(non-last) authorisation makes verify() invalid. -/
theorem revoke_verify_witness :
    ∃ upd L', revoke ⟨"user-1", [] ++ authB1 :: [authB2], []⟩ authB1.id "500" =
        Except.ok (upd, L') ∧ (verify L').valid = false := by
  obtain ⟨upd, L', h1, _, _, h4⟩ := revoke_verify "user-1" "500" [] [] [authB2] authB1
    (by decide) (by decide) (by decide)
  exact ⟨upd, L', h1, h4 (by simp)⟩

theorem mem_insertLe {α : Type} (le : α → α → Bool) (x y : α) :
    ∀ l : List α, y ∈ insertLe le x l ↔ y = x ∨ y ∈ l := by
  intro l
  induction l with
  | nil => simp [insertLe]
  | cons a t ih =>
    simp only [insertLe]
    split
    all_goals simp only [List.mem_cons, ih]
    all_goals tauto

theorem mem_stableSortBy {α : Type} (le : α → α → Bool) (l : List α) (y : α) :
    y ∈ stableSortBy le l ↔ y ∈ l := by
  suffices h : ∀ (l acc : List α), y ∈ l.foldl (fun acc x => insertLe le x acc) acc ↔
      y ∈ acc ∨ y ∈ l by
    have := h l []
    simpa [stableSortBy] using this
  intro l
  induction l with
  | nil => intro acc; simp
  | cons a t ih =>
    intro acc
    simp only [List.foldl_cons, ih, mem_insertLe, List.mem_cons]
    tauto

theorem length_insertLe {α : Type} (le : α → α → Bool) (x : α) :
    ∀ l : List α, (insertLe le x l).length = l.length + 1 := by
  intro l
  induction l with
  | nil => rfl
  | cons a t ih =>
    simp only [insertLe]
    split
    · simp [ih]
    · simp

theorem length_stableSortBy {α : Type} (le : α → α → Bool) (l : List α) :
    (stableSortBy le l).length = l.length := by
  suffices h : ∀ (l acc : List α), (l.foldl (fun acc x => insertLe le x acc) acc).length =
      acc.length + l.length by
    simpa [stableSortBy] using h l []
  intro l
  induction l with
  | nil => intro acc; simp
  | cons a t ih =>
    intro acc
    simp only [List.foldl_cons, ih, length_insertLe, List.length_cons]
    omega

theorem length_sortByTimestamp (l : List ActionRecord) :
    (sortByTimestamp l).length = l.length :=
  length_stableSortBy _ l

theorem mem_sortByTimestamp (l : List ActionRecord) (a : ActionRecord) :
    a ∈ sortByTimestamp l ↔ a ∈ l :=
  mem_stableSortBy _ l a

theorem gradualForAuth_spec (actions : List ActionRecord) (auth : AuthorisationEntry) :
    ∀ p ∈ gradualForAuth actions auth,
      p.pattern_type = ScopeCreepPatternType.gradual_expansion ∧
      MIN_DATA_POINTS ≤ p.evidence_ids.length ∧
      (∀ e ∈ p.evidence_ids, ∃ a ∈ actions, a.authorisation_id = auth.id ∧ a.id = e) ∧
      p.evidence_ids.length ≤ (actionsForAuth actions auth.id).length := by
  intro p hp
  unfold gradualForAuth at hp
  rcases hlim : getLimitForAuth auth ConstraintType.monetary_limit with _ | limit <;>
    rw [hlim] at hp
  · cases hp
  · simp only at hp
    split at hp
    · cases hp
    · next hlen =>
      split at hp
      · rcases List.mem_singleton.mp hp with rfl
        refine ⟨rfl, ?_, ?_, ?_⟩
        · simpa using Nat.le_of_not_lt hlen
        · intro e he
          rcases List.mem_map.mp he with ⟨v, hv, rfl⟩
          rcases List.mem_filterMap.mp hv with ⟨a, ha, hsome⟩
          rcases Option.map_eq_some'.mp hsome with ⟨w, _, rfl⟩
          have ha' := (mem_sortByTimestamp _ a).mp ha
          rcases List.mem_filter.mp ha' with ⟨hmem, hid⟩
          exact ⟨a, hmem, decide_eq_true_eq.mp hid, rfl⟩
        · rw [List.length_map, ← length_sortByTimestamp (actionsForAuth actions auth.id)]
          exact List.length_filterMap_le _ _
      · cases hp

theorem frequencyForAuth_spec (actions : List ActionRecord) (auth : AuthorisationEntry) :
    ∀ p ∈ frequencyForAuth actions auth,
      p.pattern_type = ScopeCreepPatternType.frequency_escalation ∧
      MIN_DATA_POINTS ≤ p.evidence_ids.length ∧
      (∀ e ∈ p.evidence_ids, ∃ a ∈ actions, a.authorisation_id = auth.id ∧ a.id = e) ∧
      p.evidence_ids.length ≤ (actionsForAuth actions auth.id).length := by
  intro p hp
  unfold frequencyForAuth at hp
  simp only at hp
  split at hp
  · cases hp
  · next hlen =>
    split at hp
    · cases hp
    · split at hp
      · rcases List.mem_singleton.mp hp with rfl
        have hlen' : ¬ (sortByTimestamp (actionsForAuth actions auth.id)).length <
            MIN_DATA_POINTS := hlen
        rw [← length_sortByTimestamp (actionsForAuth actions auth.id)]
        refine ⟨rfl, ?_, ?_, ?_⟩
        · simp only [List.length_map, List.length_drop]
          omega
        · intro e he
          rcases List.mem_map.mp he with ⟨a, ha, rfl⟩
          have ha' := (mem_sortByTimestamp _ a).mp (List.drop_subset _ _ ha)
          rcases List.mem_filter.mp ha' with ⟨hmem, hid⟩
          exact ⟨a, hmem, decide_eq_true_eq.mp hid, rfl⟩
        · simp only [List.length_map, List.length_drop]
          omega
      · cases hp

theorem domainDriftForAuth_spec (actions : List ActionRecord) (auth : AuthorisationEntry) :
    ∀ p ∈ domainDriftForAuth actions auth,
      p.pattern_type = ScopeCreepPatternType.domain_drift ∧
      MIN_DATA_POINTS ≤ p.evidence_ids.length ∧
      (∀ e ∈ p.evidence_ids, ∃ a ∈ actions, a.authorisation_id = auth.id ∧ a.id = e) ∧
      p.evidence_ids.length ≤ (actionsForAuth actions auth.id).length := by
  intro p hp
  unfold domainDriftForAuth at hp
  rcases hdc : auth.constraints.find? (fun c => c.type = ConstraintType.domain_restriction)
      with _ | dc <;> rw [hdc] at hp
  · cases hp
  · simp only at hp
    split at hp
    · cases hp
    · split at hp
      · next hout =>
        rcases List.mem_singleton.mp hp with rfl
        refine ⟨rfl, ?_, ?_, ?_⟩
        · simpa using hout
        · intro e he
          rcases List.mem_map.mp he with ⟨v, hv, rfl⟩
          rcases List.mem_filterMap.mp hv with ⟨a, ha, hsome⟩
          have ha' := (mem_sortByTimestamp _ a).mp ha
          rcases List.mem_filter.mp ha' with ⟨hmem, hid⟩
          have hv1 : v.1 = a.id := by
            split at hsome
            · cases hsome
            · split at hsome
              · cases hsome
              · cases hsome; rfl
          rw [hv1]
          exact ⟨a, hmem, decide_eq_true_eq.mp hid, rfl⟩
        · rw [List.length_map, ← length_sortByTimestamp (actionsForAuth actions auth.id)]
          exact List.length_filterMap_le _ _
      · cases hp

theorem erosion_type_spec (auths : List AuthorisationEntry) (acts : List ActionRecord)
    (vba : List (String × List SimpleViolation)) :
    ∀ p ∈ detectConstraintErosion auths acts vba,
      p.pattern_type = ScopeCreepPatternType.constraint_erosion := by
  intro p hp
  unfold detectConstraintErosion at hp
  rcases List.mem_flatMap.mp hp with ⟨t, _, hmem⟩
  simp only at hmem
  split at hmem
  · cases hmem
  · split at hmem
    · rcases List.mem_singleton.mp hmem with rfl
      rfl
    · cases hmem

theorem inflation_spec (auths : List AuthorisationEntry) (acts : List ActionRecord)
    (msm : List (String × ConsentStatus)) :
    ∀ p ∈ detectAuthorityInflation auths acts msm,
      p.pattern_type = ScopeCreepPatternType.authority_inflation ∧
      ∀ e ∈ p.evidence_ids, ∃ a ∈ acts, a.id = e ∧
        ¬ (auths.any fun x => x.id = a.authorisation_id) = true := by
  intro p hp
  unfold detectAuthorityInflation at hp
  simp only at hp
  split at hp
  · cases hp
  · split at hp
    · rcases List.mem_singleton.mp hp with rfl
      refine ⟨rfl, ?_⟩
      intro e he
      rcases List.mem_map.mp he with ⟨a, ha, rfl⟩
      rcases List.mem_filter.mp ha with ⟨ha2, hnoauth⟩
      rcases List.mem_filter.mp ha2 with ⟨hmem, _⟩
      refine ⟨a, hmem, rfl, ?_⟩
      intro hc
      rw [hc] at hnoauth
      cases hnoauth
    · cases hp

/-- C8: gradual_expansion fires for an authorisation carrying a
parseable monetary_limit iff, after sorting its actions by timestamp and
dropping unparseable amounts, at least three values remain, the
amount/limit ratios strictly increase across every consecutive pair and
the final ratio is ≥ 0.7; the severity is min(0.9, 0.3 + 0.5·finalRatio);
`detectScopeCreep` reports exactly the patterns `detectGradualExpansion`
produces under the gradual_expansion type; concretely amounts
100, 250, 400 against limit 500 in increasing timestamp order fire and
the same amounts in decreasing order do not. -/
theorem gradual_expansion_characterised :
    (∀ (actions : List ActionRecord) (auth : AuthorisationEntry) (limit : JNum),
      getLimitForAuth auth ConstraintType.monetary_limit = some limit →
      (gradualForAuth actions auth ≠ [] ↔
        (MIN_DATA_POINTS ≤ ((sortByTimestamp (actionsForAuth actions auth.id)).filterMap
            fun a => (getMonetaryValue a.parameters).map fun v => (a.id, a.timestamp, v)).length ∧
         strictIncr (((sortByTimestamp (actionsForAuth actions auth.id)).filterMap
            fun a => (getMonetaryValue a.parameters).map fun v => (a.id, a.timestamp, v)).map
            fun x => jnDiv x.2.2 limit) = true ∧
         jnLe (jnMk 7 10) ((((sortByTimestamp (actionsForAuth actions auth.id)).filterMap
            fun a => (getMonetaryValue a.parameters).map fun v => (a.id, a.timestamp, v)).map
            fun x => jnDiv x.2.2 limit).getLastD (jnOfNat 0)) = true)) ∧
      (∀ p ∈ gradualForAuth actions auth,
        p.pattern_type = ScopeCreepPatternType.gradual_expansion ∧
        p.evidence_ids = ((sortByTimestamp (actionsForAuth actions auth.id)).filterMap
            fun a => (getMonetaryValue a.parameters).map fun v => (a.id, a.timestamp, v)).map
            (fun x => x.1) ∧
        p.severity = jnMin (jnMk 9 10) (jnAdd (jnMk 3 10)
          (jnMul ((((sortByTimestamp (actionsForAuth actions auth.id)).filterMap
            fun a => (getMonetaryValue a.parameters).map fun v => (a.id, a.timestamp, v)).map
            fun x => jnDiv x.2.2 limit).getLastD (jnOfNat 0)) (jnMk 1 2))))) ∧
    (∀ input : DriftDetectorInput,
      (detectScopeCreep input).filter
        (fun p => p.pattern_type = ScopeCreepPatternType.gradual_expansion) =
      detectGradualExpansion input.authorisations input.actions) ∧
    detectGradualExpansion [authMon] creepActsUp ≠ [] ∧
    detectGradualExpansion [authMon] creepActsDown = [] := by
  refine ⟨?_, ?_, by decide, by decide⟩
  · intro actions auth limit hlim
    constructor
    · unfold gradualForAuth
      rw [hlim]
      simp only []
      split
      · next hlen =>
        simp only [ne_eq, not_true_eq_false, false_iff, not_and]
        intro hge
        omega
      · next hlen =>
        split
        · next hcond =>
          rw [Bool.and_eq_true] at hcond
          simp only [ne_eq, List.cons_ne_nil, not_false_eq_true, true_iff]
          exact ⟨Nat.le_of_not_lt hlen, hcond.1, hcond.2⟩
        · next hcond =>
          rw [Bool.and_eq_true] at hcond
          simp only [ne_eq, not_true_eq_false, false_iff, not_and]
          intro _ h1 h2
          exact hcond ⟨h1, h2⟩
    · intro p hp
      unfold gradualForAuth at hp
      rw [hlim] at hp
      simp only [] at hp
      split at hp
      · cases hp
      · split at hp
        · rcases List.mem_singleton.mp hp with rfl
          exact ⟨rfl, rfl, rfl⟩
        · cases hp
  · intro input
    unfold detectScopeCreep
    rw [List.filter_filter]
    rw [List.filter_append, List.filter_append, List.filter_append, List.filter_append]
    have hG : (detectGradualExpansion input.authorisations input.actions).filter
        (fun p => decide (p.pattern_type = ScopeCreepPatternType.gradual_expansion) &&
          decide (MIN_DATA_POINTS ≤ p.evidence_ids.length)) =
        detectGradualExpansion input.authorisations input.actions := by
      rw [List.filter_eq_self]
      intro p hp
      rcases List.mem_flatMap.mp hp with ⟨auth, _, hmem⟩
      have hspec := gradualForAuth_spec input.actions auth p hmem
      simp [hspec.1, hspec.2.1]
    have hnil : ∀ (l : List ScopeCreepPattern),
        (∀ p ∈ l, p.pattern_type ≠ ScopeCreepPatternType.gradual_expansion) →
        l.filter (fun p => decide (p.pattern_type = ScopeCreepPatternType.gradual_expansion) &&
          decide (MIN_DATA_POINTS ≤ p.evidence_ids.length)) = [] := by
      intro l hl
      rw [List.filter_eq_nil_iff]
      intro p hp
      simp [hl p hp]
    have hF := hnil (detectFrequencyEscalation input.authorisations input.actions) ?hf
    case hf =>
      intro p hp
      rcases List.mem_flatMap.mp hp with ⟨auth, _, hmem⟩
      rw [(frequencyForAuth_spec input.actions auth p hmem).1]
      intro h
      cases h
    have hD := hnil (detectDomainDrift input.authorisations input.actions) ?hd
    case hd =>
      intro p hp
      rcases List.mem_flatMap.mp hp with ⟨auth, _, hmem⟩
      rw [(domainDriftForAuth_spec input.actions auth p hmem).1]
      intro h
      cases h
    have hE := hnil (detectConstraintErosion input.authorisations input.actions
        input.violationsByAction) ?he
    case he =>
      intro p hp
      rw [erosion_type_spec input.authorisations input.actions input.violationsByAction p hp]
      intro h
      cases h
    have hA := hnil (detectAuthorityInflation input.authorisations input.actions
        input.matchStatusByAction) ?ha
    case ha =>
      intro p hp
      rw [(inflation_spec input.authorisations input.actions
        input.matchStatusByAction p hp).1]
      intro h
      cases h
    rw [hG, hF, hD, hE, hA]
    simp

/-- C8 witness: the iff instantiated at the fixture authorisation (limit
500) and the increasing three-amount history. -/
theorem gradual_expansion_characterised_witness :
    gradualForAuth creepActsUp authMon ≠ [] ∧
    (detectScopeCreep ⟨[authMon], creepActsUp, [], []⟩).filter
      (fun p => p.pattern_type = ScopeCreepPatternType.gradual_expansion) =
      detectGradualExpansion [authMon] creepActsUp := by
  have h := gradual_expansion_characterised
  constructor
  · exact ((h.1 creepActsUp authMon (jnOfNat 500) (by decide)).1).mpr
      ⟨by decide, by decide, by decide⟩
  · exact h.2.1 ⟨[authMon], creepActsUp, [], []⟩

theorem checkMonetaryLimit_some (c : ConsentConstraint) (ps : Params)
    (v : ConsentViolation) (h : checkMonetaryLimit c ps = some v) :
    v.constraint_type = "monetary_limit" ∧ v.severity ≠ ViolationSeverity.minor := by
  unfold checkMonetaryLimit at h
  split at h
  · cases h
  · split at h
    · cases h
    · split at h
      · cases h
        refine ⟨rfl, ?_⟩
        split
        · intro hc; cases hc
        · intro hc; cases hc
      · cases h

theorem checkDomainRestriction_some (c : ConsentConstraint) (ps : Params)
    (v : ConsentViolation) (h : checkDomainRestriction c ps = some v) :
    v.constraint_type = "domain_restriction" ∧ v.severity ≠ ViolationSeverity.minor := by
  unfold checkDomainRestriction at h
  simp only [] at h
  split at h
  · cases h
  · split at h
    · cases h
    · cases h
      exact ⟨rfl, fun hc => by cases hc⟩

theorem checkTimeWindow_some (c : ConsentConstraint) (ts : String)
    (v : ConsentViolation) (h : checkTimeWindow c ts = some v) :
    v.constraint_type = "time_window" ∧ v.severity ≠ ViolationSeverity.minor := by
  unfold checkTimeWindow at h
  simp only [] at h
  split at h
  · cases h
  · split at h
    · split at h
      · split at h
        · cases h
          exact ⟨rfl, fun hc => by cases hc⟩
        · cases h
      · cases h
    · cases h

theorem checkApprovalRequired_some (c : ConsentConstraint) (ps : Params)
    (v : ConsentViolation) (h : checkApprovalRequired c ps = some v) :
    v.constraint_type = "approval_required" ∧ v.severity ≠ ViolationSeverity.minor := by
  unfold checkApprovalRequired at h
  simp only [] at h
  split at h
  · cases h
  · cases h
    exact ⟨rfl, fun hc => by cases hc⟩

theorem checkRecipientRestriction_some (c : ConsentConstraint) (ps : Params)
    (v : ConsentViolation) (h : checkRecipientRestriction c ps = some v) :
    v.constraint_type = "recipient_restriction" ∧ v.severity ≠ ViolationSeverity.minor := by
  unfold checkRecipientRestriction at h
  simp only [] at h
  split at h
  · cases h
  · split at h
    · cases h
    · cases h
      exact ⟨rfl, fun hc => by cases hc⟩

theorem checkFrequencyLimit_some (c : ConsentConstraint) (ps : Params)
    (ctx : FreqContext) (v : ConsentViolation) (h : checkFrequencyLimit c ps ctx = some v) :
    v.constraint_type = "frequency_limit" ∧ v.severity ≠ ViolationSeverity.minor := by
  unfold checkFrequencyLimit at h
  rcases hctx : ctx.limit with _ | l
  all_goals rw [hctx] at h
  all_goals simp only [] at h
  · split at h
    · cases h
    · split at h
      · cases h
        refine ⟨rfl, ?_⟩
        split
        · intro hc; cases hc
        · intro hc; cases hc
      · cases h
  · split at h
    · cases h
      refine ⟨rfl, ?_⟩
      split
      · intro hc; cases hc
      · intro hc; cases hc
    · cases h

theorem checkCustom_some (c : ConsentConstraint) (act : ActionRecord)
    (v : ConsentViolation) (h : checkCustom c act = some v) :
    v.constraint_type = "custom" ∧ v.severity = ViolationSeverity.minor := by
  unfold checkCustom at h
  simp only [] at h
  split at h
  · cases h
  · cases h
    exact ⟨rfl, rfl⟩

/-- Classification of every violation `matchConsent` can produce: the
severity is `minor` exactly for `custom` violations. -/
theorem matchConsent_minor_iff_custom (a : Option AuthorisationEntry)
    (act : ActionRecord) (ctx : Option MatcherContext) (now : String) :
    ∀ v ∈ (matchConsent a act ctx now).violations,
      (v.severity = ViolationSeverity.minor ↔ v.constraint_type = "custom") := by
  intro v hv
  cases a with
  | none =>
    rcases List.mem_singleton.mp hv with rfl
    simp
  | some auth =>
    by_cases hrev : auth.revoked = true
    · have hm : (matchConsent (some auth) act ctx now).violations =
          [{ constraint_type := "revocation"
             expected := "active authorisation"
             actual := "revoked at " ++ jsNullableString auth.revoked_at
             severity := ViolationSeverity.critical
             description := "Action performed after authorisation was revoked" }] := by
        simp [matchConsent, hrev]
      rw [hm] at hv
      rcases List.mem_singleton.mp hv with rfl
      simp
    · by_cases hexp : expiryBefore auth.expires_at act.timestamp = true
      · have hm : (matchConsent (some auth) act ctx now).violations =
            [{ constraint_type := "expiry"
               expected := "valid before " ++ jsNullableString auth.expires_at
               actual := act.timestamp
               severity := ViolationSeverity.critical
               description := "Action performed after authorisation expired" }] := by
          simp [matchConsent, hrev, hexp]
        rw [hm] at hv
        rcases List.mem_singleton.mp hv with rfl
        simp
      · by_cases hem : auth.scope = ConsentScope.emergency
        · have hm : (matchConsent (some auth) act ctx now).violations = [] := by
            simp [matchConsent, hrev, hexp, hem]
          rw [hm] at hv
          cases hv
        · have hm : (matchConsent (some auth) act ctx now).violations =
              auth.constraints.filterMap (evalConstraint auth act ctx) := by
            simp [matchConsent, hrev, hexp, hem]
          rw [hm] at hv
          rcases List.mem_filterMap.mp hv with ⟨c, _, hev⟩
          unfold evalConstraint at hev
          split at hev
          · have := checkMonetaryLimit_some c act.parameters v hev
            constructor
            · intro hm; exact absurd hm this.2
            · intro hc; rw [this.1] at hc; exact absurd hc (by decide)
          · have := checkDomainRestriction_some c act.parameters v hev
            constructor
            · intro hm; exact absurd hm this.2
            · intro hc; rw [this.1] at hc; exact absurd hc (by decide)
          · have := checkTimeWindow_some c act.timestamp v hev
            constructor
            · intro hm; exact absurd hm this.2
            · intro hc; rw [this.1] at hc; exact absurd hc (by decide)
          · have := checkApprovalRequired_some c act.parameters v hev
            constructor
            · intro hm; exact absurd hm this.2
            · intro hc; rw [this.1] at hc; exact absurd hc (by decide)
          · have := checkRecipientRestriction_some c act.parameters v hev
            constructor
            · intro hm; exact absurd hm this.2
            · intro hc; rw [this.1] at hc; exact absurd hc (by decide)
          · have := checkFrequencyLimit_some c act.parameters _ v hev
            constructor
            · intro hm; exact absurd hm this.2
            · intro hc; rw [this.1] at hc; exact absurd hc (by decide)
          · have := checkCustom_some c act v hev
            exact ⟨fun _ => this.1, fun _ => this.2⟩

theorem mem_setAssoc {β : Type} (m : List (String × β)) (k : String) (v : β)
    (e : String × β) (he : e ∈ setAssoc m k v) : e ∈ m ∨ e = (k, v) := by
  unfold setAssoc at he
  split at he
  · rcases List.mem_map.mp he with ⟨x, hx, hxe⟩
    by_cases hxk : x.1 = k
    · right
      rw [if_pos hxk] at hxe
      exact hxe.symm
    · left
      rw [if_neg hxk] at hxe
      exact hxe ▸ hx
  · rcases List.mem_append.mp he with h | h
    · exact Or.inl h
    · exact Or.inr (List.mem_singleton.mp h)

theorem facadeViolationsMap_inv (P : String × List SimpleViolation → Prop) :
    ∀ ms : List ConsentMatch,
      (∀ m ∈ ms, P (m.action_id, m.violations.map fun v =>
        { constraint_type := v.constraint_type, severity := v.severity })) →
      ∀ acc : List (String × List SimpleViolation), (∀ e ∈ acc, P e) →
      ∀ e ∈ ms.foldl
        (fun m mm =>
          if mm.violations.length > 0 then
            setAssoc m mm.action_id (mm.violations.map fun v =>
              { constraint_type := v.constraint_type, severity := v.severity })
          else m) acc, P e := by
  intro ms
  induction ms with
  | nil => intro _ acc hacc e he; exact hacc e he
  | cons mm rest ih =>
    intro hms acc hacc e he
    rw [List.foldl_cons] at he
    refine ih (fun m hm => hms m (List.mem_cons_of_mem mm hm)) _ ?_ e he
    intro x hx
    split at hx
    · rcases mem_setAssoc _ _ _ x hx with h | rfl
      · exact hacc x h
      · exact hms mm (List.mem_cons_self mm rest)
    · exact hacc x hx

theorem mem_erosionListFor (vba : List (String × List SimpleViolation)) (t : String)
    (x : String × ViolationSeverity) (hx : x ∈ erosionListFor vba t) :
    ∃ e ∈ vba, ∃ sv ∈ e.2, sv.constraint_type = t ∧ x = (e.1, sv.severity) := by
  unfold erosionListFor at hx
  rcases List.mem_flatMap.mp hx with ⟨e, he, hmem⟩
  rcases List.mem_filterMap.mp hmem with ⟨sv, hsv, hsome⟩
  split at hsome
  · next hct => cases hsome; exact ⟨e, he, sv, hsv, hct, rfl⟩
  · cases hsome

theorem strictIncrNat_narrow_false (lo : Nat) (l : List Nat) (h3 : 3 ≤ l.length)
    (hb : ∀ x ∈ l, lo ≤ x ∧ x ≤ lo + 1) : strictIncrNat l = false := by
  match l, h3 with
  | a :: b :: c :: t, _ =>
    have ha := hb a (by simp)
    have hbb := hb b (by simp)
    have hcc := hb c (by simp)
    rw [strictIncrNat, strictIncrNat]
    cases hab : decide (a < b) with
    | false => simp
    | true =>
      cases hbc : decide (b < c) with
      | false => simp
      | true =>
        rw [decide_eq_true_eq] at hab hbc
        omega

/-- With the violations the facade's matcher pass produces, no
constraint type can accumulate three violations of strictly increasing
severity (only `custom` produces `minor`, and `custom` produces nothing
else), so `constraint_erosion` never fires from the facade. -/
theorem erosion_facade_empty (L : Ledger) (now : String) :
    detectConstraintErosion L.authorisations L.actions
      (facadeViolationsMap (checkAllActions L now)) = [] := by
  have hclass : ∀ e ∈ facadeViolationsMap (checkAllActions L now), ∀ sv ∈ e.2,
      (sv.severity = ViolationSeverity.minor ↔ sv.constraint_type = "custom") := by
    intro e he
    refine facadeViolationsMap_inv
      (fun e => ∀ sv ∈ e.2, (sv.severity = ViolationSeverity.minor ↔
        sv.constraint_type = "custom"))
      (checkAllActions L now) ?_ [] (by intro x hx; cases hx) e he
    intro m hm sv hsv
    rcases List.mem_map.mp hsv with ⟨v, hv, rfl⟩
    rcases List.mem_map.mp hm with ⟨action, _, rfl⟩
    exact matchConsent_minor_iff_custom _ action _ now v hv
  rw [List.eq_nil_iff_forall_not_mem]
  intro p hp
  unfold detectConstraintErosion at hp
  rcases List.mem_flatMap.mp hp with ⟨t, _, hmem⟩
  simp only at hmem
  split at hmem
  · cases hmem
  · next hlen =>
    split at hmem
    · next hinc =>
      have hxcl : ∀ x ∈ erosionListFor (facadeViolationsMap (checkAllActions L now)) t,
          (x.2 = ViolationSeverity.minor ↔ t = "custom") := by
        intro x hx
        rcases mem_erosionListFor _ t x hx with ⟨e, he, sv, hsv, hct, rfl⟩
        rw [← hct]
        exact hclass e he sv hsv
      have h3 : 3 ≤ ((erosionListFor (facadeViolationsMap (checkAllActions L now)) t).map
          fun x => severityOrder x.2).length := by
        simp only [List.length_map]
        exact Nat.le_of_not_lt hlen
      by_cases hcust : t = "custom"
      · have hfalse := strictIncrNat_narrow_false 1 _ h3 ?_
        · rw [hfalse] at hinc; cases hinc
        · intro x hx
          rcases List.mem_map.mp hx with ⟨y, hy, rfl⟩
          have hm := (hxcl y hy).mpr hcust
          rw [hm]
          exact ⟨by decide, by decide⟩
      · have hfalse := strictIncrNat_narrow_false 2 _ h3 ?_
        · rw [hfalse] at hinc; cases hinc
        · intro x hx
          rcases List.mem_map.mp hx with ⟨y, hy, rfl⟩
          have hnm : y.2 ≠ ViolationSeverity.minor := fun hm => hcust ((hxcl y hy).mp hm)
          cases hs : y.2 with
          | minor => exact absurd hs hnm
          | major => exact ⟨by decide, by decide⟩
          | critical => exact ⟨by decide, by decide⟩
    · cases hmem

/-- C9: on a ledger with distinct action ids, every pattern the facade's
detectScopeCreep() returns has at least three evidence entries, and for
an authorisation with fewer than three recorded actions no returned
pattern's evidence references the id of any action recorded under it
(the per-authorisation detectors respect the threshold, the
cross-authorisation constraint_erosion detector can never fire from
facade-produced violations, and authority_inflation only cites orphaned
actions). -/
theorem detectScopeCreep_min_data_points (L : Ledger) (now : String)
    (A : AuthorisationEntry) (hA : A ∈ L.authorisations)
    (hnodupAct : (L.actions.map fun a => a.id).Nodup)
    (hfew : (L.actions.filter fun a => a.authorisation_id = A.id).length <
      MIN_DATA_POINTS) :
    ∀ p ∈ ledgerDetectScopeCreep L now,
      MIN_DATA_POINTS ≤ p.evidence_ids.length ∧
      ∀ act ∈ L.actions, act.authorisation_id = A.id → act.id ∉ p.evidence_ids := by
  intro p hp
  unfold ledgerDetectScopeCreep detectScopeCreep at hp
  simp only [] at hp
  rw [List.mem_filter] at hp
  rcases hp with ⟨hmem, hlen⟩
  refine ⟨by simpa using hlen, ?_⟩
  intro act hact hactA hin
  rw [erosion_facade_empty] at hmem
  have hperauth : ∀ (B : AuthorisationEntry),
      (∀ e ∈ p.evidence_ids, ∃ a ∈ L.actions, a.authorisation_id = B.id ∧ a.id = e) →
      p.evidence_ids.length ≤ (actionsForAuth L.actions B.id).length →
      MIN_DATA_POINTS ≤ p.evidence_ids.length → False := by
    intro B hesp hbound h3
    by_cases hid : B.id = A.id
    · rw [hid] at hbound
      have : (actionsForAuth L.actions A.id).length <
          MIN_DATA_POINTS := hfew
      omega
    · rcases hesp act.id hin with ⟨a, ha, haB, haid⟩
      have : a = act := List.inj_on_of_nodup_map hnodupAct ha hact haid
      rw [this] at haB
      rw [hactA] at haB
      exact hid haB.symm
  rcases List.mem_append.mp hmem with hm | hm
  · rcases List.mem_append.mp hm with hm2 | hm2
    · rcases List.mem_append.mp hm2 with hm3 | hm3
      · rcases List.mem_append.mp hm3 with hm4 | hm4
        · rcases List.mem_flatMap.mp hm4 with ⟨B, _, hmm⟩
          have hspec := gradualForAuth_spec L.actions B p hmm
          exact hperauth B hspec.2.2.1 hspec.2.2.2 hspec.2.1
        · rcases List.mem_flatMap.mp hm4 with ⟨B, _, hmm⟩
          have hspec := frequencyForAuth_spec L.actions B p hmm
          exact hperauth B hspec.2.2.1 hspec.2.2.2 hspec.2.1
      · rcases List.mem_flatMap.mp hm3 with ⟨B, _, hmm⟩
        have hspec := domainDriftForAuth_spec L.actions B p hmm
        exact hperauth B hspec.2.2.1 hspec.2.2.2 hspec.2.1
    · cases hm2
  · have hspec := inflation_spec L.authorisations L.actions _ p hm
    rcases hspec.2 act.id hin with ⟨a, ha, haid, hnoauth⟩
    have haacteq : a = act := List.inj_on_of_nodup_map hnodupAct ha hact haid
    refine hnoauth ?_
    rw [haacteq, hactA]
    rw [List.any_eq_true]
    exact ⟨A, hA, by simp⟩

/-- C9 witness: a ledger with one authorisation and two recorded actions
(w1, w2); no returned pattern cites action w1. -/
theorem detectScopeCreep_min_data_points_witness :
    (ledgerDetectScopeCreep ledgerTwoActs "900").filter
      (fun p => "w1" ∈ p.evidence_ids) = [] := by
  rw [List.filter_eq_nil_iff]
  intro p hp hw
  have h := detectScopeCreep_min_data_points ledgerTwoActs "900" authB1
    (by decide) (by decide) (by decide) p hp
  have hact : (recordAction ledgerB1 (payFieldsA1 100) "w1" "100").1 ∈
      ledgerTwoActs.actions := by decide
  have hnot := h.2 (recordAction ledgerB1 (payFieldsA1 100) "w1" "100").1 hact (by decide)
  exact hnot (by simpa using hw)

end CNL
